import Mathlib

/-!
Shallow embedding of the `glitch` deterministic discrete-event simulator
(Rust sources under `src/`): the event loop, the network fault model
(per-link state machine and the global partition state machine), the node
crash/recovery wrapper, and the RNG-driven scheduling.

Conventions of the embedding:
* `std::time::Instant` and `std::time::Duration` are modelled as `Nat`
  nanoseconds (`Instant.duration_since` saturates at zero, as `Nat`
  subtraction does).
* `f64` quantities (probabilities, exponential rates, latency multipliers)
  are modelled over `ℚ`; casts `as u64` become `Int.floor` + `Int.toNat`.
* Every function that takes `&mut rng` in Rust returns the advanced RNG
  explicitly; the threading order matches the source statement order.
-/

namespace Glitch

/-- Modelled from the spec: `NodeId` (its defining module is not under
`src/`; `src/src/node.rs` imports it from the crate root).  Per the spec it
is a tagged identifier, `Server(i)` (called `Node(i)` in the code) or
`Client(i)`, totally ordered by tag then index. -/
inductive NodeId where
  | node (i : Nat)
  | client (i : Nat)
deriving DecidableEq, Repr

instance : Inhabited NodeId := ⟨NodeId.node 0⟩

/-- Rank used to realise the spec's tag-then-index total order. -/
def NodeId.rank : NodeId → Nat × Nat
  | .node i => (0, i)
  | .client i => (1, i)

/-- The strict order on `NodeId` (tag first, then index). -/
def NodeId.lt (a b : NodeId) : Bool :=
  a.rank.1 < b.rank.1 || (a.rank.1 = b.rank.1 && a.rank.2 < b.rank.2)

/-- Modelled from the spec: `rand_chacha::ChaCha8Rng` is an external crate;
the spec only relies on it being a deterministic stream seeded exactly once
from a 64-bit seed.  We model it as the seed plus a stream position, with
`next_u64` a fixed concrete mixing function; no property below depends on
the particular values, only on determinism and single-stream threading. -/
structure ChaCha8Rng where
  seed : Nat
  pos : Nat
deriving DecidableEq, Repr

/-- `ChaCha8Rng::seed_from_u64`. -/
def ChaCha8Rng.seed_from_u64 (seed : Nat) : ChaCha8Rng :=
  ⟨seed % 2 ^ 64, 0⟩

/-- `rng.next_u64()`: one 64-bit draw, advancing the stream position. -/
def ChaCha8Rng.next_u64 (r : ChaCha8Rng) : Nat × ChaCha8Rng :=
  (((r.seed + r.pos) * 6364136223846793005 + 1442695040888963407) % 2 ^ 64,
    ⟨r.seed, r.pos + 1⟩)

/-- `rng.gen_bool(p)`: a coin with probability `p`, modelled as comparing a
uniform draw in `[0,1)` against `p`. -/
def ChaCha8Rng.gen_bool (r : ChaCha8Rng) (p : ℚ) : Bool × ChaCha8Rng :=
  let u := r.next_u64
  (((u.1 % 4096 : Nat) : ℚ) / 4096 < p, u.2)

/-- `rng.gen_range(lo..=hi)` on `usize` (inclusive range). -/
def ChaCha8Rng.gen_range_incl (r : ChaCha8Rng) (lo hi : Nat) : Nat × ChaCha8Rng :=
  let u := r.next_u64
  (lo + u.1 % (hi + 1 - lo), u.2)

/-- `rand_distr::Exp::new(rate).sample(rng)`: a nonnegative draw from an
exponential distribution.  Modelled as a nonnegative rational scaled by the
rate; nonnegativity is the only distributional fact the engine relies on. -/
def ChaCha8Rng.expSample (r : ChaCha8Rng) (rate : ℚ) : ℚ × ChaCha8Rng :=
  let u := r.next_u64
  (if 0 < rate then ((u.1 % 4096 : Nat) : ℚ) / (4096 * rate) else 0, u.2)

/-- `Duration::from_secs_f64` / `Duration::from_millis`-style conversion of a
nonnegative rational number of seconds into `Nat` nanoseconds. -/
def ratSecsToDuration (q : ℚ) : Nat :=
  (⌊q * 1000000000⌋).toNat

/-- `src/src/util.rs` `sample_failure_time(start_time, mtf, rand)`: draws a
multiplier from `Exp::new(1.0 / mtf.as_secs_f64())` and returns
`start_time + Duration::from_secs_f64(mult)`. -/
def sample_failure_time (start_time : Nat) (mtf : Nat) (r : ChaCha8Rng) :
    Nat × ChaCha8Rng :=
  let rate : ℚ := if mtf = 0 then 0 else 1000000000 / (mtf : ℚ)
  let m := r.expSample rate
  (start_time + ratSecsToDuration m.1, m.2)

/-- `src/src/config.rs` `FailureConfiguration`. -/
structure FailureConfiguration where
  mean_time_between_failures : Option Nat
  mean_time_to_recover : Nat
deriving DecidableEq, Repr

/-- `src/src/networking/config.rs` `NetworkConfig` (the `Exp<f64>` latency
distribution is represented by its rate). -/
structure NetworkConfig where
  min_message_latency : Nat
  max_message_latency : Nat
  latency_distribution : ℚ
  duplicate_probability : ℚ
  hold_probability : ℚ
  mean_time_between_link_failures : Option Nat
  mean_link_recovery_time : Nat
  mean_time_between_partitions : Option Nat
  mean_partition_recovery_time : Nat
deriving DecidableEq, Repr

/-- `src/src/config.rs` `Configuration`. -/
structure Configuration where
  tick_interval : Nat
  max_sim_time : Nat
  seed : Nat
  check_invariants_frequency : Nat
  network_config : NetworkConfig
  failure_config : FailureConfiguration
deriving DecidableEq, Repr

/-- `slice::swap(i, j)` on a list (identity when an index is out of range;
in the source the indices are always in range). -/
def listSwap {α : Type} (l : List α) (i j : Nat) : List α :=
  match l[i]?, l[j]? with
  | some a, some b => (l.set i b).set j a
  | _, _ => l

/-- The loop of `rand`'s Fisher–Yates `shuffle`: for `i` from `len - 1`
down to `1`, swap position `i` with a uniform position in `[0, i]`.  The
argument counts the remaining iterations, i.e. the current `i`. -/
def shuffleFrom {α : Type} : List α → ChaCha8Rng → Nat → List α × ChaCha8Rng
  | l, r, 0 => (l, r)
  | l, r, i + 1 =>
    let j := r.gen_range_incl 0 (i + 1)
    shuffleFrom (listSwap l (i + 1) j.1) j.2 i

/-- `rand::seq::SliceRandom::shuffle`. -/
def shuffle {α : Type} (l : List α) (r : ChaCha8Rng) : List α × ChaCha8Rng :=
  match l.length with
  | 0 => (l, r)
  | n + 1 => shuffleFrom l r n

/-- `HashSet::insert` on a list-represented set (no duplicates added). -/
def hsInsert (s : List NodeId) (a : NodeId) : List NodeId :=
  if a ∈ s then s else s ++ [a]

/-- `src/src/networking/partition.rs` `sample_random_subset(nodes,
min_nodes, rng)`: draws `node_count` uniformly from `min_nodes..=nodes.len()`,
shuffles the candidate indices `min_nodes..nodes.len()`, and inserts the
first `node_count` of them (truncating at the pool size) into a set. -/
def sample_random_subset (nodes : List NodeId) (min_nodes : Nat)
    (rng : ChaCha8Rng) : List NodeId × ChaCha8Rng :=
  let nc := rng.gen_range_incl min_nodes nodes.length
  let node_indices : List Nat := List.range' min_nodes (nodes.length - min_nodes)
  let sh := shuffle node_indices nc.2
  ((((sh.1).take nc.1).map fun idx => nodes.getD idx default).foldl hsInsert [],
    sh.2)

/-- `src/src/networking/partition.rs` `PartitionState`. -/
inductive PartitionState where
  | normal (expected_partition : Option Nat)
  | partition (partioned_nodes : List NodeId) (expected_recovery : Nat)
deriving DecidableEq, Repr

/-- `PartitionState::is_partitioned`: in `Partition`, true iff exactly one
endpoint lies in the partitioned set. -/
def PartitionState.is_partitioned (s : PartitionState) (fromId toId : NodeId) :
    Bool :=
  match s with
  | .partition partioned_nodes _ =>
    partioned_nodes.contains fromId != partioned_nodes.contains toId
  | _ => false

/-- `src/src/networking/partition.rs` `NetworkPartition`. -/
structure NetworkPartition where
  partition_state : PartitionState
  nodes : List NodeId
  config : NetworkConfig
  simulation_start : Nat
deriving Repr

/-- `NetworkPartition::new`. -/
def NetworkPartition.new (now : Nat) (nodes : List NodeId)
    (config : NetworkConfig) (rand : ChaCha8Rng) :
    NetworkPartition × ChaCha8Rng :=
  let ep :=
    match config.mean_time_between_partitions with
    | none => (none, rand)
    | some mtbp =>
      let t := sample_failure_time now mtbp rand
      (some t.1, t.2)
  (⟨.normal ep.1, nodes, config, now⟩, ep.2)

/-- `NetworkPartition::check_partition_state_transition`: lazy advancement
of the partition state at `now`. -/
def NetworkPartition.check_partition_state_transition (self : NetworkPartition)
    (now : Nat) (rand : ChaCha8Rng) : NetworkPartition × ChaCha8Rng :=
  match self.partition_state with
  | .normal (some ep) =>
    if ep ≤ now then
      let pn := sample_random_subset self.nodes 1 rand
      let er := sample_failure_time now self.config.mean_partition_recovery_time pn.2
      ({ self with partition_state := .partition pn.1 er.1 }, er.2)
    else (self, rand)
  | .normal none => (self, rand)
  | .partition _ expected_recovery =>
    if expected_recovery ≤ now then
      let ep :=
        match self.config.mean_time_between_partitions with
        | none => (none, rand)
        | some mtbp =>
          let t := sample_failure_time now mtbp rand
          (some t.1, t.2)
      ({ self with partition_state := .normal ep.1 }, ep.2)
    else (self, rand)

/-- `NetworkPartition::is_partitioned`: advance lazily, then query. -/
def NetworkPartition.is_partitioned (self : NetworkPartition) (now : Nat)
    (fromId toId : NodeId) (rand : ChaCha8Rng) :
    Bool × NetworkPartition × ChaCha8Rng :=
  let sr := self.check_partition_state_transition now rand
  ((sr.1).partition_state.is_partitioned fromId toId, sr.1, sr.2)

/-- `src/src/networking/network.rs` `DeliverMessage` (a delivery intent:
the message plus its sampled delay). -/
structure DeliverMessage (M : Type) where
  message : M
  delay : Nat
deriving DecidableEq, Repr

/-- `src/src/networking/link.rs` `LinkState`. -/
inductive LinkState (M : Type) where
  | up (expected_failure : Option Nat)
  | tempFailure (expected_recovery : Nat)
  | tempHold (expected_recovery : Nat) (queued_messages : List M)
deriving DecidableEq, Repr

/-- `src/src/networking/link.rs` `Link` (`from`/`to` renamed since `from`
is a Lean keyword). -/
structure Link (M : Type) where
  state : LinkState M
  config : NetworkConfig
  simulation_start : Nat
  fromId : NodeId
  toId : NodeId
deriving Repr

/-- `Link::gen_up_state`: a fresh `Up` state, sampling the next expected
failure when link failures are configured. -/
def Link.gen_up_state {M : Type} (now : Nat) (rand : ChaCha8Rng)
    (config : NetworkConfig) : LinkState M × ChaCha8Rng :=
  match config.mean_time_between_link_failures with
  | none => (.up none, rand)
  | some mtf =>
    let t := sample_failure_time now mtf rand
    (.up (some t.1), t.2)

/-- `Link::new`. -/
def Link.new {M : Type} (config : NetworkConfig) (simulation_start now : Nat)
    (fromId toId : NodeId) (rand : ChaCha8Rng) : Link M × ChaCha8Rng :=
  let st := Link.gen_up_state now rand config
  (⟨st.1, config, simulation_start, fromId, toId⟩, st.2)

/-- `Link::check_state_transition`: lazy advancement of the link state at
`now`, returning the messages released by a `TempHold → Up` transition. -/
def Link.check_state_transition {M : Type} (self : Link M) (now : Nat)
    (rand : ChaCha8Rng) : List M × Link M × ChaCha8Rng :=
  match self.state with
  | .up (some ef) =>
    if ef ≤ now then
      let coin := rand.gen_bool self.config.hold_probability
      if coin.1 then
        let er := sample_failure_time now self.config.mean_link_recovery_time coin.2
        ([], { self with state := .tempHold er.1 [] }, er.2)
      else
        let er := sample_failure_time now self.config.mean_link_recovery_time coin.2
        ([], { self with state := .tempFailure er.1 }, er.2)
    else ([], self, rand)
  | .up none => ([], self, rand)
  | .tempFailure expected_recovery =>
    if expected_recovery ≤ now then
      let st := Link.gen_up_state now rand self.config
      ([], { self with state := st.1 }, st.2)
    else ([], self, rand)
  | .tempHold expected_recovery queued_messages =>
    if expected_recovery ≤ now then
      let st := Link.gen_up_state now rand self.config
      (queued_messages, { self with state := st.1 }, st.2)
    else ([], self, rand)

/-- `Link::calculate_delay`: `min_latency` plus the millisecond-truncated
product of the latency range (in milliseconds) and an exponential
multiplier, clamped above by `max_latency`. -/
def Link.calculate_delay {M : Type} (self : Link M) (rand : ChaCha8Rng) :
    Nat × ChaCha8Rng :=
  let mult := rand.expSample self.config.latency_distribution
  let range : Nat :=
    (self.config.max_message_latency - self.config.min_message_latency) / 1000000
  let delay :=
    self.config.min_message_latency + 1000000 * (⌊(range : ℚ) * mult.1⌋).toNat
  (min delay self.config.max_message_latency, mult.2)

/-- The `.map` over output messages in `Link::send`, threading the RNG so
each message receives an independently sampled delay. -/
def Link.mapDelays {M : Type} (self : Link M) :
    List M → ChaCha8Rng → List (DeliverMessage M) × ChaCha8Rng
  | [], rand => ([], rand)
  | m :: rest, rand =>
    let d := self.calculate_delay rand
    let out := self.mapDelays rest d.2
    (⟨m, d.1⟩ :: out.1, out.2)

/-- The `Up` branch of `Link::send`: flip the duplicate coin, append one or
two copies of the message after the released batch, and give every output
message an independently sampled delay. -/
def Link.deliverUp {M : Type} (self : Link M) (released_messages : List M)
    (message : M) (rand : ChaCha8Rng) :
    List (DeliverMessage M) × Link M × ChaCha8Rng :=
  let coin := rand.gen_bool self.config.duplicate_probability
  let msgs :=
    if coin.1 then released_messages ++ [message, message]
    else released_messages ++ [message]
  let out := self.mapDelays msgs coin.2
  (out.1, self, out.2)

/-- `Link::send`: advance the state, then apply the incoming message by the
new state (deliver with optional duplicate, hold, or drop). -/
def Link.send {M : Type} (self : Link M) (message : M) (now : Nat)
    (rand : ChaCha8Rng) : List (DeliverMessage M) × Link M × ChaCha8Rng :=
  let cst := self.check_state_transition now rand
  let released_messages := cst.1
  let link := cst.2.1
  let rand := cst.2.2
  match link.state with
  | .up _ => link.deliverUp released_messages message rand
  | .tempHold expected_recovery queued_messages =>
    ([], { link with state := .tempHold expected_recovery (queued_messages ++ [message]) },
      rand)
  | .tempFailure expected_recovery =>
    ([], { link with state := .tempFailure expected_recovery }, rand)

/-- `src/src/networking/network.rs` `Network` (its `HashMap` of links is an
association list; only keyed lookup and insertion are used). -/
structure Network (M : Type) where
  links : List ((NodeId × NodeId) × Link M)
  partitioning : NetworkPartition
  config : NetworkConfig
  simulation_start : Nat
deriving Repr

/-- `HashMap::get` on the association list of links. -/
def assocFind {M : Type} (links : List ((NodeId × NodeId) × Link M))
    (key : NodeId × NodeId) : Option (Link M) :=
  match links.find? (fun e => e.1 = key) with
  | some e => some e.2
  | none => none

/-- `HashMap` entry update (replace the binding if present, else append). -/
def assocSet {M : Type} (links : List ((NodeId × NodeId) × Link M))
    (key : NodeId × NodeId) (l : Link M) : List ((NodeId × NodeId) × Link M) :=
  match links with
  | [] => [(key, l)]
  | e :: rest =>
    if e.1 = key then (key, l) :: rest else e :: assocSet rest key l

/-- `Network::new`. -/
def Network.new {M : Type} (simulation_start : Nat) (config : NetworkConfig)
    (nodes : List NodeId) (rand : ChaCha8Rng) : Network M × ChaCha8Rng :=
  let p := NetworkPartition.new simulation_start nodes config rand
  (⟨[], p.1, config, simulation_start⟩, p.2)

/-- The non-partitioned branch of `Network::send`: compute the canonical
unordered pair key, look up or lazily create the link, and delegate to
`Link::send`, storing back the updated link. -/
def Network.sendVia {M : Type} (self : Network M) (message : M) (now : Nat)
    (fromId toId : NodeId) (rand : ChaCha8Rng) :
    List (DeliverMessage M) × Network M × ChaCha8Rng :=
  let bidirectional :=
    if NodeId.lt fromId toId then (fromId, toId)
    else if NodeId.lt toId fromId then (toId, fromId)
    else (fromId, toId)
  let lk :=
    match assocFind self.links bidirectional with
    | some l => (l, rand)
    | none => Link.new self.config self.simulation_start now fromId toId rand
  let out := (lk.1).send message now lk.2
  (out.1, { self with links := assocSet self.links bidirectional out.2.1 },
    out.2.2)

/-- `Network::send`: query the partition first (a partitioned pair is
dropped with no delivery intents); otherwise look up or lazily create the
link for the canonical unordered pair and delegate to `Link::send`. -/
def Network.send {M : Type} (msrc mdst : M → NodeId) (self : Network M)
    (message : M) (now : Nat) (rand : ChaCha8Rng) :
    List (DeliverMessage M) × Network M × ChaCha8Rng :=
  let fromId := msrc message
  let toId := mdst message
  let part := self.partitioning.is_partitioned now fromId toId rand
  let partitioned := part.1
  let self := { self with partitioning := part.2.1 }
  let rand := part.2.2
  if partitioned then ([], self, rand)
  else Network.sendVia self message now fromId toId rand

/-- `src/src/model.rs` `DeterministicNode`: the user server-node contract,
as an explicit state machine over a node-state type `NS`. -/
structure DeterministicNode (NS M : Type) where
  id : NS → NodeId
  tick : NS → Nat → NS × List M
  process_message : NS → M → Nat → NS × List M
  recover : NS → Nat → Nat → Nat → NS
  is_recovering : NS → Bool

/-- `src/src/model.rs` `DeterministicClient`, as an explicit state machine
over a client-state type `CS`. -/
structure DeterministicClient (CS M : Type) where
  id : CS → NodeId
  tick : CS → Nat → CS × List M
  process_message : CS → M → Nat → CS × List M
  finished : CS → Bool

/-- `src/src/node.rs` `NodeState` (the crash-wrapper state). -/
inductive NodeState where
  | normal (failure_time : Option Nat)
  | failed (recovery_time : Nat)
deriving DecidableEq, Repr

/-- `NodeState::is_failed` (from `derive(IsVariant)`). -/
def NodeState.is_failed : NodeState → Bool
  | .failed _ => true
  | .normal _ => false

/-- `NodeState::is_normal` (from `derive(IsVariant)`). -/
def NodeState.is_normal : NodeState → Bool
  | .normal _ => true
  | .failed _ => false

/-- `src/src/node.rs` `Node`: the crash/recovery wrapper around a user
node. -/
structure Node (NS : Type) where
  node : NS
  state : NodeState
  failure_config : FailureConfiguration
  replica_count : Nat
  start_time : Nat

/-- `Node::new`: wraps a user node, sampling the initial failure time when
node crashes are configured. -/
def Node.new {NS M : Type} (_impl : DeterministicNode NS M) (node : NS)
    (failure_config : FailureConfiguration) (rng : ChaCha8Rng)
    (start_time : Nat) (replica_count : Nat) : Node NS × ChaCha8Rng :=
  let ft :=
    match failure_config.mean_time_between_failures with
    | none => (none, rng)
    | some mtbf =>
      let t := sample_failure_time start_time mtbf rng
      (some t.1, t.2)
  (⟨node, .normal ft.1, failure_config, replica_count, start_time⟩, ft.2)

/-- `Node::is_up`: up iff neither `Failed` nor recovering. -/
def Node.is_up {NS M : Type} (impl : DeterministicNode NS M) (self : Node NS) :
    Bool :=
  !(self.state.is_failed || impl.is_recovering self.node)

/-- `Node::has_failed`: the crash/recovery state-machine step.  A
`Normal → Failed` transition requires the failure time to be due **and**
`can_fail`; a `Failed → Normal` transition calls `recover` on the user node
with a fresh nonce.  Returns whether the wrapper is failed afterwards. -/
def Node.has_failed {NS M : Type} (impl : DeterministicNode NS M)
    (self : Node NS) (now : Nat) (can_fail : Bool) (rand : ChaCha8Rng) :
    Bool × Node NS × ChaCha8Rng :=
  match self.state with
  | .normal (some failure_time) =>
    if failure_time ≤ now && can_fail then
      let rt :=
        sample_failure_time now
          (self.failure_config.mean_time_between_failures.getD 0) rand
      (true, { self with state := .failed rt.1 }, rt.2)
    else (false, self, rand)
  | .normal none => (false, self, rand)
  | .failed recovery_time =>
    if recovery_time ≤ now then
      let ft :=
        match self.failure_config.mean_time_between_failures with
        | none => (none, rand)
        | some mtbf =>
          let t := sample_failure_time now mtbf rand
          (some t.1, t.2)
      let nonce := (ft.2).next_u64
      let node := impl.recover self.node now nonce.1 self.replica_count
      (false, { self with state := .normal ft.1, node := node }, nonce.2)
    else (true, self, rand)

/-- `Node::tick`: advance the crash state with `can_fail = false`; if
failed, emit nothing, else delegate to the user node's `tick`. -/
def Node.tick {NS M : Type} (impl : DeterministicNode NS M) (self : Node NS)
    (now : Nat) (rand : ChaCha8Rng) : List M × Node NS × ChaCha8Rng :=
  let hf := self.has_failed impl now false rand
  if hf.1 then ([], hf.2.1, hf.2.2)
  else
    let nm := impl.tick (hf.2.1).node now
    (nm.2, { hf.2.1 with node := nm.1 }, hf.2.2)

/-- `Node::process_message`: advance the crash state with the given
`can_fail`; if failed, drop the message, else delegate to the user node. -/
def Node.process_message {NS M : Type} (impl : DeterministicNode NS M)
    (self : Node NS) (msg : M) (now : Nat) (can_fail : Bool)
    (rand : ChaCha8Rng) : List M × Node NS × ChaCha8Rng :=
  let hf := self.has_failed impl now can_fail rand
  if hf.1 then ([], hf.2.1, hf.2.2)
  else
    let nm := impl.process_message (hf.2.1).node msg now
    (nm.2, { hf.2.1 with node := nm.1 }, hf.2.2)

/-- `src/src/simulator.rs` `EventTime`: a virtual instant plus the tiebreak
offset, ordered lexicographically. -/
structure EventTime where
  time : Nat
  offset : Nat
deriving DecidableEq, Repr

/-- The strict lexicographic order on `EventTime` (the derived Rust `Ord`). -/
def EventTime.lt (a b : EventTime) : Bool :=
  a.time < b.time || (a.time = b.time && a.offset < b.offset)

/-- `src/src/simulator.rs` `SimulationMessage`: a protocol message plus the
engine-assigned message id. -/
structure SimulationMessage (M : Type) where
  message : M
  id : Nat
deriving DecidableEq, Repr

/-- `src/src/simulator.rs` `Event`. -/
inductive Event (M : Type) where
  | message (msg : SimulationMessage M)
  | tick
deriving DecidableEq, Repr

/-- `BTreeMap::insert` on the key-sorted association list that models the
event queue (an existing equal key is replaced, as in `BTreeMap`). -/
def btreeInsert {M : Type} (k : EventTime) (v : Event M) :
    List (EventTime × Event M) → List (EventTime × Event M)
  | [] => [(k, v)]
  | (k', v') :: rest =>
    if EventTime.lt k k' then (k, v) :: (k', v') :: rest
    else if k = k' then (k, v) :: rest
    else (k', v') :: btreeInsert k v rest

/-- The engine-side bundle of the user protocol: the `ProtocolMessage`
accessors and the two plug-in state machines of `src/src/model.rs`. -/
structure Protocol (M NS CS : Type) where
  source : M → NodeId
  destination : M → NodeId
  node : DeterministicNode NS M
  client : DeterministicClient CS M

/-- `src/src/simulator.rs` `Simulator` (the invariant checker is a
`&self`-only callback whose sole effect is a possible abort; its
invocations are recorded in the run trace instead). -/
structure Simulator (M NS CS : Type) where
  start_time : Nat
  network : Network M
  nodes : List (Node NS)
  clients : List CS
  events : List (EventTime × Event M)
  config : Configuration
  rng : ChaCha8Rng
  elapsed : Nat
  event_processed_count : Nat
  total_event_count : Nat
  total_message_count : Nat

/-- `src/src/simulator.rs` `validate_node_ids`: the construction-time
assertion that server and client ids are dense from 0 (in the source a
failed check aborts; here the condition itself). -/
def validate_node_ids {M NS CS : Type} (P : Protocol M NS CS) (nodes : List NS)
    (clients : List CS) : Bool :=
  decide (nodes.map P.node.id = (List.range nodes.length).map NodeId.node) &&
    decide (clients.map P.client.id = (List.range clients.length).map NodeId.client)

/-- The `nodes.into_iter().map(Node::new)` fold of `Simulator::new`,
threading the RNG through the wrappers in order. -/
def wrapNodes {M NS CS : Type} (P : Protocol M NS CS)
    (failure_config : FailureConfiguration) (start_time replica_count : Nat) :
    List NS → ChaCha8Rng → List (Node NS) × ChaCha8Rng
  | [], rng => ([], rng)
  | n :: rest, rng =>
    let w := Node.new P.node n failure_config rng start_time replica_count
    let ws := wrapNodes P failure_config start_time replica_count rest w.2
    (w.1 :: ws.1, ws.2)

/-- `Simulator::new`: seed the RNG once from `config.seed`, wrap the server
nodes (sampling initial failure times), build the network over all NodeIds,
and enqueue the initial `Tick` at `start_time` with offset 0. -/
def Simulator.new {M NS CS : Type} (P : Protocol M NS CS) (start_time : Nat)
    (nodes : List NS) (clients : List CS) (config : Configuration) :
    Simulator M NS CS :=
  let rng := ChaCha8Rng.seed_from_u64 config.seed
  let replica_count := nodes.length
  let wn := wrapNodes P config.failure_config start_time replica_count nodes rng
  let nodeIds :=
    (List.range (wn.1).length).map NodeId.node ++
      (List.range clients.length).map NodeId.client
  let net := Network.new start_time config.network_config nodeIds wn.2
  { start_time := start_time
    network := net.1
    nodes := wn.1
    clients := clients
    events := [(⟨start_time, 0⟩, Event.tick)]
    config := config
    rng := net.2
    elapsed := 0
    event_processed_count := 0
    total_event_count := 0
    total_message_count := 0 }

/-- `Simulator::push_event`: increment `total_event_count` and use it as
the fresh tiebreak offset of the inserted key. -/
def Simulator.push_event {M NS CS : Type} (s : Simulator M NS CS) (time : Nat)
    (event : Event M) : Simulator M NS CS :=
  { s with
    total_event_count := s.total_event_count + 1
    events := btreeInsert ⟨time, s.total_event_count + 1⟩ event s.events }

/-- `Simulator::can_additional_node_fail`: a further failure is authorized
iff the count of not-up wrappers is below `floor(server_count / 2)`. -/
def Simulator.can_additional_node_fail {M NS CS : Type} (P : Protocol M NS CS)
    (s : Simulator M NS CS) : Bool :=
  (s.nodes.countP fun n => !(Node.is_up P.node n)) < s.nodes.length / 2

/-- The server half of the `Tick` dispatch: tick every wrapper in order,
threading the RNG and concatenating emissions. -/
def tickNodes {M NS CS : Type} (P : Protocol M NS CS) (now : Nat) :
    List (Node NS) → ChaCha8Rng → List (Node NS) × List M × ChaCha8Rng
  | [], rng => ([], [], rng)
  | n :: rest, rng =>
    let tk := Node.tick P.node n now rng
    let rest' := tickNodes P now rest tk.2.2
    (tk.2.1 :: rest'.1, tk.1 ++ rest'.2.1, rest'.2.2)

/-- The client half of the `Tick` dispatch. -/
def tickClients {M NS CS : Type} (P : Protocol M NS CS) (now : Nat) :
    List CS → List CS × List M
  | [] => ([], [])
  | c :: rest =>
    let tk := P.client.tick c now
    let rest' := tickClients P now rest
    (tk.1 :: rest'.1, tk.2 ++ rest'.2)

/-- The server-destination case of the `Event::Message` dispatch: compute
`can_fail` from the current census and hand the message to the wrapper
(`self.nodes[node_id]` indexing made total with an unreachable fallback). -/
def Simulator.handleNodeMsg {M NS CS : Type} (P : Protocol M NS CS) (now : Nat)
    (sm : SimulationMessage M) (node_id : Nat) (s : Simulator M NS CS) :
    List M × Simulator M NS CS :=
  let can_fail := Simulator.can_additional_node_fail P s
  match s.nodes[node_id]? with
  | some nw =>
    let pm := Node.process_message P.node nw sm.message now can_fail s.rng
    (pm.1, { s with nodes := s.nodes.set node_id pm.2.1, rng := pm.2.2 })
  | none => ([], s)

/-- The client-destination case of the `Event::Message` dispatch. -/
def Simulator.handleClientMsg {M NS CS : Type} (P : Protocol M NS CS)
    (now : Nat) (sm : SimulationMessage M) (client_id : Nat)
    (s : Simulator M NS CS) : List M × Simulator M NS CS :=
  match s.clients[client_id]? with
  | some c =>
    let pm := P.client.process_message c sm.message now
    (pm.2, { s with clients := s.clients.set client_id pm.1 })
  | none => ([], s)

/-- The `Event::Message` arm of `Simulator::handle_event`: route to the
destination server wrapper or client. -/
def Simulator.handleMessage {M NS CS : Type} (P : Protocol M NS CS) (now : Nat)
    (sm : SimulationMessage M) (s : Simulator M NS CS) :
    List M × Simulator M NS CS :=
  match P.destination sm.message with
  | .node node_id => s.handleNodeMsg P now sm node_id
  | .client client_id => s.handleClientMsg P now sm client_id

/-- The `Event::Tick` arm of `Simulator::handle_event`: tick every server
wrapper then every client, and self-schedule the next `Tick`. -/
def Simulator.handleTick {M NS CS : Type} (P : Protocol M NS CS) (now : Nat)
    (s : Simulator M NS CS) : List M × Simulator M NS CS :=
  let tn := tickNodes P now s.nodes s.rng
  let tc := tickClients P now s.clients
  let s := { s with nodes := tn.1, clients := tc.1, rng := tn.2.2 }
  let s := s.push_event (now + s.config.tick_interval) Event.tick
  (tn.2.1 ++ tc.2, s)

/-- `Simulator::handle_event`: dispatch one event, returning the emitted
protocol messages and the updated simulator. -/
def Simulator.handle_event {M NS CS : Type} (P : Protocol M NS CS) (now : Nat)
    (event : Event M) (s : Simulator M NS CS) : List M × Simulator M NS CS :=
  match event with
  | .message sm => s.handleMessage P now sm
  | .tick => s.handleTick P now

/-- The inner `for del_msg in delivered_msgs` loop of `Simulator::run`:
enqueue every delivery intent at `now + delay` under the shared message id. -/
def pushDelivered {M NS CS : Type} (now message_id : Nat) :
    List (DeliverMessage M) → Simulator M NS CS → Simulator M NS CS
  | [], s => s
  | d :: rest, s =>
    pushDelivered now message_id rest
      (s.push_event (now + d.delay) (Event.message ⟨d.message, message_id⟩))

/-- The outer `for msg in messages` loop of `Simulator::run`: assign a
fresh message id, route through the network, and enqueue the deliveries. -/
def processSends {M NS CS : Type} (P : Protocol M NS CS) (now : Nat) :
    List M → Simulator M NS CS → Simulator M NS CS
  | [], s => s
  | m :: rest, s =>
    let message_id := s.total_message_count + 1
    let sent := Network.send P.source P.destination s.network m now s.rng
    let s :=
      { s with total_message_count := message_id, network := sent.2.1,
               rng := sent.2.2 }
    let s := pushDelivered now message_id sent.1 s
    processSends P now rest s

/-- One entry of the observable run trace: a dispatched event (its time,
kind, and for messages the source/destination and message id), or one
invocation of the invariant checker. -/
inductive TraceEntry where
  | tickProcessed (time : EventTime)
  | messageProcessed (time : EventTime) (src dst : NodeId) (id : Nat)
  | checked
deriving DecidableEq, Repr

/-- The trace entry recorded when an event is dispatched. -/
def traceOf {M NS CS : Type} (P : Protocol M NS CS) (time : EventTime)
    (event : Event M) : TraceEntry :=
  match event with
  | .tick => .tickProcessed time
  | .message sm =>
    .messageProcessed time (P.source sm.message) (P.destination sm.message) sm.id

/-- The outcome of one iteration of the `run` loop body. -/
inductive StepResult (M NS CS : Type) where
  | done (result : Bool)
  | next (s : Simulator M NS CS)

/-- The body of the `while let` loop of `Simulator::run`: pop the earliest
event, bump `event_processed_count` and `elapsed`, then in order check the
time budget, check client completion (with a final invariant check), and
otherwise dispatch the event, run the strided invariant check, and send the
emitted messages through the network. -/
def Simulator.runStep {M NS CS : Type} (P : Protocol M NS CS)
    (s : Simulator M NS CS) : StepResult M NS CS × List TraceEntry :=
  match s.events with
  | [] => (.done false, [])
  | (event_time, event) :: rest =>
    let now := event_time.time
    let s :=
      { s with
        events := rest
        event_processed_count := s.event_processed_count + 1
        elapsed := now - s.start_time }
    if s.config.max_sim_time < now - s.start_time then (.done false, [])
    else if s.clients.all P.client.finished then (.done true, [.checked])
    else
      let he := s.handle_event P now event
      let tr :=
        if (he.2).event_processed_count % (he.2).config.check_invariants_frequency
            = 0 then
          [traceOf P event_time event, TraceEntry.checked]
        else [traceOf P event_time event]
      let s := processSends P now he.1 he.2
      (.next s, tr)

/-- `Simulator::run`, with explicit fuel for the unbounded `while let`
loop: `some b` is the source's return value, paired with the concatenated
run trace; `none` means the fuel ran out with the loop still going. -/
def Simulator.run {M NS CS : Type} (P : Protocol M NS CS) :
    Nat → Simulator M NS CS → Option Bool × List TraceEntry
  | 0, _ => (none, [])
  | fuel + 1, s =>
    let st := s.runStep P
    match st.1 with
    | .done b => (some b, st.2)
    | .next s' =>
      let rest := Simulator.run P fuel s'
      (rest.1, st.2 ++ rest.2)

/-- The states the run loop passes through: `iterate P k s` is the state
after `k` non-terminating loop iterations (`none` once the loop has
returned). -/
def Simulator.iterate {M NS CS : Type} (P : Protocol M NS CS) :
    Nat → Simulator M NS CS → Option (Simulator M NS CS)
  | 0, s => some s
  | k + 1, s =>
    match (s.runStep P).1 with
    | .done _ => none
    | .next s' => Simulator.iterate P k s'

/-- A minimal user protocol over `Unit` message/state types, used to
instantiate the engine on concrete inputs. -/
def unitProtocol : Protocol Unit Unit Unit where
  source := fun _ => .node 0
  destination := fun _ => .node 0
  node :=
    { id := fun _ => .node 0
      tick := fun s _ => (s, [])
      process_message := fun s _ _ => (s, [])
      recover := fun s _ _ _ => s
      is_recovering := fun _ => false }
  client :=
    { id := fun _ => .client 0
      tick := fun s _ => (s, [])
      process_message := fun s _ _ => (s, [])
      finished := fun _ => false }

/-- A concrete `NetworkConfig` with every fault source enabled. -/
def sampleNetworkConfig : NetworkConfig where
  min_message_latency := 0
  max_message_latency := 100000000
  latency_distribution := 5
  duplicate_probability := 1 / 10
  hold_probability := 3 / 10
  mean_time_between_link_failures := some 1000000000
  mean_link_recovery_time := 300000000
  mean_time_between_partitions := some 4000000000
  mean_partition_recovery_time := 1000000000

/-- A concrete `Configuration` (the source's defaults, with crashes
enabled). -/
def sampleConfig : Configuration where
  tick_interval := 50000000
  max_sim_time := 10000000000
  seed := 1
  check_invariants_frequency := 1
  network_config := sampleNetworkConfig
  failure_config :=
    { mean_time_between_failures := some 3000000000
      mean_time_to_recover := 2000000000 }

/-! ### Helper lemmas -/

/-- `mapDelays` attaches a delay to each message, preserving the message
sequence exactly. -/
theorem mapDelays_messages {M : Type} (self : Link M) (msgs : List M)
    (rand : ChaCha8Rng) :
    ((self.mapDelays msgs rand).1).map DeliverMessage.message = msgs := by
  induction msgs generalizing rand with
  | nil => simp [Link.mapDelays]
  | cons m rest ih => simp [Link.mapDelays, ih]

/-! ### Claim C8 -/

/-- Claim C8: for every delivery intent produced by a link, assuming
`min_message_latency ≤ max_message_latency`, the sampled delay satisfies
`min_message_latency ≤ delay ≤ max_message_latency`; the delay is
`min_message_latency` plus (max − min, in whole milliseconds) times the
sampled multiplier, truncated to whole milliseconds and clamped above by
`max_message_latency`; and in a batch each message's delay is sampled
independently, from the stream position left by the previous sample. -/
theorem c8_delay_bounds {M : Type} (self : Link M) (rand : ChaCha8Rng)
    (h : self.config.min_message_latency ≤ self.config.max_message_latency) :
    self.config.min_message_latency ≤ (self.calculate_delay rand).1 ∧
    (self.calculate_delay rand).1 ≤ self.config.max_message_latency ∧
    (self.calculate_delay rand).1 =
      min
        (self.config.min_message_latency +
          1000000 *
            (⌊(((self.config.max_message_latency -
                self.config.min_message_latency) / 1000000 : Nat) : ℚ) *
              (rand.expSample self.config.latency_distribution).1⌋).toNat)
        self.config.max_message_latency ∧
    (∀ (m : M) (rest : List M),
      self.mapDelays (m :: rest) rand =
        (⟨m, (self.calculate_delay rand).1⟩ ::
            (self.mapDelays rest (self.calculate_delay rand).2).1,
          (self.mapDelays rest (self.calculate_delay rand).2).2)) := by
  refine ⟨?_, ?_, ?_, ?_⟩
  · simp only [Link.calculate_delay]
    exact le_min (Nat.le_add_right _ _) h
  · simp only [Link.calculate_delay]
    exact min_le_right _ _
  · rfl
  · intro m rest
    simp [Link.mapDelays]

/-- A concrete `Up` link over the sample configuration. -/
def sampleUpLink : Link Unit where
  state := .up none
  config := sampleNetworkConfig
  simulation_start := 0
  fromId := .node 0
  toId := .client 0

/-- A concrete link holding two messages, recovering at instant 10. -/
def sampleHoldLink : Link Unit where
  state := .tempHold 10 [(), ()]
  config := sampleNetworkConfig
  simulation_start := 0
  fromId := .node 0
  toId := .client 0

/-- Witness for C8 at a concrete link configuration. -/
theorem c8_delay_bounds_witness :
    sampleUpLink.config.min_message_latency ≤
      (sampleUpLink.calculate_delay (ChaCha8Rng.seed_from_u64 1)).1 ∧
    (sampleUpLink.calculate_delay (ChaCha8Rng.seed_from_u64 1)).1 ≤
      sampleUpLink.config.max_message_latency := by
  have h := c8_delay_bounds sampleUpLink (ChaCha8Rng.seed_from_u64 1) (by decide)
  exact ⟨h.1, h.2.1⟩

/-- Case reduction for `check_state_transition` on a held link. -/
theorem check_state_transition_tempHold {M : Type} (cfg : NetworkConfig)
    (si : Nat) (f t : NodeId) (er : Nat) (q : List M) (now : Nat)
    (rand : ChaCha8Rng) :
    Link.check_state_transition ⟨.tempHold er q, cfg, si, f, t⟩ now rand =
      if er ≤ now then
        (q, ⟨(Link.gen_up_state (M := M) now rand cfg).1, cfg, si, f, t⟩,
          (Link.gen_up_state (M := M) now rand cfg).2)
      else ([], ⟨.tempHold er q, cfg, si, f, t⟩, rand) := by
  simp only [Link.check_state_transition]

/-- Case reduction for `Link.send` on a held link that is not yet due to
recover: the message joins the back of the hold queue. -/
theorem send_tempHold_wait {M : Type} (cfg : NetworkConfig) (si : Nat)
    (f t : NodeId) (er : Nat) (q : List M) (msg : M) (now : Nat)
    (rand : ChaCha8Rng) (h : ¬ er ≤ now) :
    Link.send ⟨.tempHold er q, cfg, si, f, t⟩ msg now rand =
      ([], ⟨.tempHold er (q ++ [msg]), cfg, si, f, t⟩, rand) := by
  delta Link.send
  rw [check_state_transition_tempHold, if_neg h]

/-! ### Claim C5 -/

/-- `deliverUp` unfolded against named results of its two RNG-threaded
sub-calls. -/
theorem deliverUp_eq {M : Type} (self : Link M) (rel : List M) (msg : M)
    (r r2 r3 : ChaCha8Rng) (coin : Bool) (out : List (DeliverMessage M))
    (h1 : r.gen_bool self.config.duplicate_probability = (coin, r2))
    (h2 : self.mapDelays (if coin then rel ++ [msg, msg] else rel ++ [msg]) r2 =
      (out, r3)) :
    self.deliverUp rel msg r = (out, self, r3) := by
  delta Link.deliverUp
  simp only [h1]
  simp only [h2]

/-- A fresh `Up` state is always an `up` constructor. -/
theorem gen_up_state_up {M : Type} (now : Nat) (rand : ChaCha8Rng)
    (cfg : NetworkConfig) :
    ∃ ef r', Link.gen_up_state (M := M) now rand cfg = (LinkState.up ef, r') := by
  cases hmtf : cfg.mean_time_between_link_failures with
  | none => exact ⟨none, rand, by simp [Link.gen_up_state, hmtf]⟩
  | some mtf =>
    refine ⟨some (sample_failure_time now mtf rand).1,
      (sample_failure_time now mtf rand).2, ?_⟩
    simp [Link.gen_up_state, hmtf]

/-- Claim C5: messages queued while a link is in `TempHold` are released
exactly once, on the transition out of `TempHold` back to `Up`, in the FIFO
order in which they were sent into the hold.  Concretely, for a link in
`TempHold { expected_recovery, queued }`: a `send` before the recovery
instant appends the new message to the hold queue (FIFO) and delivers
nothing; a `send` at or after it moves the link to a fresh `Up` state (the
hold queue is gone, so no second release is possible) and the delivered
batch is exactly the held queue, in order, followed by the new message
(optionally duplicated), each with its own delay. -/
theorem c5_fifo_hold {M : Type} (self : Link M) (message : M) (now : Nat)
    (rand : ChaCha8Rng) (er : Nat) (q : List M)
    (hstate : self.state = .tempHold er q) :
    (¬ er ≤ now →
      self.send message now rand =
        ([], { self with state := .tempHold er (q ++ [message]) }, rand)) ∧
    (er ≤ now →
      (∃ ef, ((self.send message now rand).2.1).state = LinkState.up ef) ∧
      (((self.send message now rand).1).map DeliverMessage.message =
          q ++ [message] ∨
        ((self.send message now rand).1).map DeliverMessage.message =
          q ++ [message, message])) := by
  obtain ⟨st, cfg, si, f, t⟩ := self
  have hst : st = .tempHold er q := hstate
  subst hst
  constructor
  · intro hlt
    exact send_tempHold_wait cfg si f t er q message now rand hlt
  · intro hle
    obtain ⟨ef, r', hgen⟩ := gen_up_state_up (M := M) now rand cfg
    have hsend :
        Link.send ⟨.tempHold er q, cfg, si, f, t⟩ message now rand =
          (⟨LinkState.up ef, cfg, si, f, t⟩ : Link M).deliverUp q message r' := by
      delta Link.send
      rw [check_state_transition_tempHold, if_pos hle]
      rw [hgen]
    rcases hcoin :
      r'.gen_bool (⟨LinkState.up ef, cfg, si, f, t⟩ : Link M).config.duplicate_probability
      with ⟨coin, rand2⟩
    rcases hmd :
      (⟨LinkState.up ef, cfg, si, f, t⟩ : Link M).mapDelays
        (if coin then q ++ [message, message] else q ++ [message]) rand2
      with ⟨out, rand3⟩
    have hdel := deliverUp_eq (⟨LinkState.up ef, cfg, si, f, t⟩ : Link M)
      q message r' rand2 rand3 coin out hcoin hmd
    have hout : out.map DeliverMessage.message =
        (if coin then q ++ [message, message] else q ++ [message]) := by
      have hm := mapDelays_messages (⟨LinkState.up ef, cfg, si, f, t⟩ : Link M)
        (if coin then q ++ [message, message] else q ++ [message]) rand2
      rw [hmd] at hm
      exact hm
    refine ⟨⟨ef, ?_⟩, ?_⟩
    · rw [hsend, hdel]
    · rw [hsend, hdel]
      cases coin with
      | false => exact Or.inl (by simpa using hout)
      | true => exact Or.inr (by simpa using hout)

/-- Witness for C5 at a concrete held link. -/
theorem c5_fifo_hold_witness :
    sampleHoldLink.send () 5 (ChaCha8Rng.seed_from_u64 1) =
      ([], { sampleHoldLink with state := .tempHold 10 [(), (), ()] },
        ChaCha8Rng.seed_from_u64 1) := by
  have h := c5_fifo_hold sampleHoldLink () 5 (ChaCha8Rng.seed_from_u64 1) 10 [(), ()] rfl
  exact h.1 (by decide)

/-! ### Claim C6 -/

/-- Claim C6: `is_partitioned(now, from, to)` first advances the partition
state lazily at `now` and then returns `true` iff the advanced state is
`Partition` with exactly one of `from`, `to` in `side_A`; and whenever
`Network::send` observes a partitioned pair it returns no delivery intents
and leaves the link table untouched (no link is consulted or created), with
the RNG exactly as the partition query left it. -/
theorem c6_partition_cut :
    (∀ (self : NetworkPartition) (now : Nat) (fromId toId : NodeId)
      (rand : ChaCha8Rng),
      (self.is_partitioned now fromId toId rand).1 =
        ((self.check_partition_state_transition now rand).1).partition_state.is_partitioned
          fromId toId ∧
      (self.is_partitioned now fromId toId rand).2.1 =
        (self.check_partition_state_transition now rand).1) ∧
    (∀ (st : PartitionState) (fromId toId : NodeId),
      st.is_partitioned fromId toId = true ↔
        ∃ pn er, st = .partition pn er ∧ ((fromId ∈ pn) ↔ ¬ (toId ∈ pn))) ∧
    (∀ {M : Type} (msrc mdst : M → NodeId) (net : Network M) (msg : M)
      (now : Nat) (rand : ChaCha8Rng),
      (net.partitioning.is_partitioned now (msrc msg) (mdst msg) rand).1 = true →
      Network.send msrc mdst net msg now rand =
        ([],
          { net with partitioning :=
              (net.partitioning.is_partitioned now (msrc msg) (mdst msg) rand).2.1 },
          (net.partitioning.is_partitioned now (msrc msg) (mdst msg) rand).2.2)) := by
  refine ⟨fun self now fromId toId rand => ⟨rfl, rfl⟩, ?_, ?_⟩
  · intro st fromId toId
    cases st with
    | normal ep => simp [PartitionState.is_partitioned]
    | partition pn er =>
      simp only [PartitionState.is_partitioned, bne_iff_ne, ne_eq,
        PartitionState.partition.injEq]
      constructor
      · intro h
        refine ⟨pn, er, ⟨rfl, rfl⟩, ?_⟩
        by_cases hf : fromId ∈ pn <;> by_cases ht : toId ∈ pn <;>
          simp [hf, ht] at h ⊢
      · rintro ⟨pn', er', ⟨hpn, her⟩, hx⟩
        subst hpn; subst her
        by_cases hf : fromId ∈ pn <;> by_cases ht : toId ∈ pn <;>
          simp [hf, ht] at hx ⊢
  · intro M msrc mdst net msg now rand h
    delta Network.send
    rw [if_pos h]

/-- A concrete active partition isolating `node 0`. -/
def samplePartitionedPartition : NetworkPartition where
  partition_state := .partition [NodeId.node 0] 100
  nodes := [NodeId.node 0, NodeId.client 0]
  config := sampleNetworkConfig
  simulation_start := 0

/-- A concrete network whose partition is active. -/
def samplePartitionedNetwork : Network Unit where
  links := []
  partitioning := samplePartitionedPartition
  config := sampleNetworkConfig
  simulation_start := 0

/-- Witness for C6: a send across the active partition is dropped. -/
theorem c6_partition_cut_witness :
    Network.send (fun _ => NodeId.node 0) (fun _ => NodeId.client 0)
        samplePartitionedNetwork () 5 (ChaCha8Rng.seed_from_u64 1) =
      ([],
        { samplePartitionedNetwork with partitioning :=
            (samplePartitionedPartition.is_partitioned 5 (NodeId.node 0)
              (NodeId.client 0) (ChaCha8Rng.seed_from_u64 1)).2.1 },
        (samplePartitionedPartition.is_partitioned 5 (NodeId.node 0)
          (NodeId.client 0) (ChaCha8Rng.seed_from_u64 1)).2.2) :=
  c6_partition_cut.2.2 (fun _ => NodeId.node 0) (fun _ => NodeId.client 0)
    samplePartitionedNetwork () 5 (ChaCha8Rng.seed_from_u64 1) (by decide)

/-! ### Claim C10 -/

/-- Claim C10: delivery gating in the node wrapper is decided solely by the
`Failed` wrapper state: a `Normal` wrapper's `tick` always delegates to the
user node (ticks never crash a node), `process_message` delegates exactly
when the advanced wrapper state is not `Failed`, and `has_failed` never
consults `is_recovering` (it depends only on the `recover` callback);
`is_recovering` only makes `is_up` return `false`, which counts the node
against the `floor(server_count / 2)` failure-authorization budget of
`can_additional_node_fail`. -/
theorem c10_recovering_gating :
    (∀ {NS M : Type} (impl : DeterministicNode NS M) (self : Node NS)
      (now : Nat) (rand : ChaCha8Rng) (ft : Option Nat),
      self.state = .normal ft →
      Node.tick impl self now rand =
        ((impl.tick self.node now).2,
          { self with node := (impl.tick self.node now).1 }, rand)) ∧
    (∀ {NS M : Type} (impl : DeterministicNode NS M) (self : Node NS) (msg : M)
      (now : Nat) (can_fail : Bool) (rand : ChaCha8Rng),
      (Node.has_failed impl self now can_fail rand).1 = false →
      Node.process_message impl self msg now can_fail rand =
        ((impl.process_message
            ((Node.has_failed impl self now can_fail rand).2.1).node msg now).2,
          { (Node.has_failed impl self now can_fail rand).2.1 with
              node := (impl.process_message
                ((Node.has_failed impl self now can_fail rand).2.1).node msg now).1 },
          (Node.has_failed impl self now can_fail rand).2.2)) ∧
    (∀ {NS M : Type} (impl impl' : DeterministicNode NS M),
      impl.recover = impl'.recover →
      ∀ (self : Node NS) (now : Nat) (can_fail : Bool) (rand : ChaCha8Rng),
      Node.has_failed impl self now can_fail rand =
        Node.has_failed impl' self now can_fail rand) ∧
    (∀ {NS M : Type} (impl : DeterministicNode NS M) (self : Node NS),
      Node.is_up impl self =
        !(self.state.is_failed || impl.is_recovering self.node)) ∧
    (∀ {M NS CS : Type} (P : Protocol M NS CS) (s : Simulator M NS CS),
      Simulator.can_additional_node_fail P s =
        decide ((s.nodes.countP fun n => !(Node.is_up P.node n)) <
          s.nodes.length / 2)) := by
  refine ⟨?_, ?_, ?_, fun impl self => rfl, fun P s => rfl⟩
  · intro NS M impl self now rand ft hst
    obtain ⟨nd, st, fc, rc, stt⟩ := self
    have h : st = .normal ft := hst
    subst h
    have hhf : Node.has_failed impl ⟨nd, .normal ft, fc, rc, stt⟩ now false rand =
        (false, ⟨nd, .normal ft, fc, rc, stt⟩, rand) := by
      cases ft with
      | none => rfl
      | some fll => simp [Node.has_failed]
    delta Node.tick
    rw [hhf]
    rfl
  · intro NS M impl self msg now can_fail rand h
    delta Node.process_message
    simp only [h]
    rfl
  · intro NS M impl impl' hrec self now can_fail rand
    obtain ⟨nd, st, fc, rc, stt⟩ := self
    cases st with
    | normal ft => cases ft <;> rfl
    | failed rt => simp only [Node.has_failed, hrec]

/-- A user node that reports it is still recovering. -/
def recoveringUnitNode : DeterministicNode Unit Unit where
  id := fun _ => .node 0
  tick := fun s _ => (s, [])
  process_message := fun s _ _ => (s, [])
  recover := fun s _ _ _ => s
  is_recovering := fun _ => true

/-- A concrete healthy (Normal, no pending failure) wrapper. -/
def sampleNormalNode : Node Unit :=
  ⟨(), .normal none, { mean_time_between_failures := none, mean_time_to_recover := 0 }, 1, 0⟩

/-- Witness for C10: a recovering-but-Normal wrapper still delegates `tick`
and `process_message`, `has_failed` ignores `is_recovering`, and `is_up` is
false for it. -/
theorem c10_recovering_gating_witness :
    (Node.tick recoveringUnitNode sampleNormalNode 5 (ChaCha8Rng.seed_from_u64 1) =
      ([], sampleNormalNode, ChaCha8Rng.seed_from_u64 1)) ∧
    (Node.process_message recoveringUnitNode sampleNormalNode () 5 false
        (ChaCha8Rng.seed_from_u64 1) =
      ([], sampleNormalNode, ChaCha8Rng.seed_from_u64 1)) ∧
    (Node.has_failed recoveringUnitNode sampleNormalNode 5 false
        (ChaCha8Rng.seed_from_u64 1) =
      Node.has_failed unitProtocol.node sampleNormalNode 5 false
        (ChaCha8Rng.seed_from_u64 1)) := by
  refine ⟨?_, ?_, ?_⟩
  · exact c10_recovering_gating.1 recoveringUnitNode sampleNormalNode 5
      (ChaCha8Rng.seed_from_u64 1) none rfl
  · exact c10_recovering_gating.2.1 recoveringUnitNode sampleNormalNode () 5 false
      (ChaCha8Rng.seed_from_u64 1) (by decide)
  · exact c10_recovering_gating.2.2.1 recoveringUnitNode unitProtocol.node rfl
      sampleNormalNode 5 false (ChaCha8Rng.seed_from_u64 1)

/-! ### Claim C4 -/

/-- A swap never introduces new elements. -/
theorem listSwap_mem {α : Type} (l : List α) (i j : Nat) (x : α)
    (h : x ∈ listSwap l i j) : x ∈ l := by
  unfold listSwap at h
  cases hi : l[i]? with
  | none => simp [hi] at h; exact h
  | some a =>
    cases hj : l[j]? with
    | none => simp [hi, hj] at h; exact h
    | some b =>
      simp only [hi, hj] at h
      rcases List.mem_or_eq_of_mem_set h with h' | rfl
      · rcases List.mem_or_eq_of_mem_set h' with h'' | rfl
        · exact h''
        · exact List.getElem?_mem hj
      · exact List.getElem?_mem hi

/-- The Fisher–Yates loop never introduces new elements. -/
theorem shuffleFrom_mem {α : Type} (x : α) :
    ∀ (i : Nat) (l : List α) (r : ChaCha8Rng),
      x ∈ (shuffleFrom l r i).1 → x ∈ l := by
  intro i
  induction i with
  | zero => intro l r h; exact h
  | succ i ih =>
    intro l r h
    exact listSwap_mem _ _ _ _ (ih _ _ h)

/-- `shuffle` never introduces new elements. -/
theorem shuffle_mem {α : Type} (l : List α) (r : ChaCha8Rng) (x : α)
    (h : x ∈ (shuffle l r).1) : x ∈ l := by
  cases l with
  | nil => exact h
  | cons a t => exact shuffleFrom_mem x t.length (a :: t) r h

/-- A swap preserves length. -/
theorem listSwap_length {α : Type} (l : List α) (i j : Nat) :
    (listSwap l i j).length = l.length := by
  unfold listSwap
  cases hi : l[i]? with
  | none => rfl
  | some a => cases hj : l[j]? with
    | none => rfl
    | some b => simp

/-- The Fisher–Yates loop preserves length. -/
theorem shuffleFrom_length {α : Type} :
    ∀ (i : Nat) (l : List α) (r : ChaCha8Rng),
      (shuffleFrom l r i).1.length = l.length := by
  intro i
  induction i with
  | zero => intro l r; rfl
  | succ i ih =>
    intro l r
    rw [shuffleFrom, ih, listSwap_length]

/-- `shuffle` preserves length. -/
theorem shuffle_length {α : Type} (l : List α) (r : ChaCha8Rng) :
    (shuffle l r).1.length = l.length := by
  cases l with
  | nil => rfl
  | cons a t =>
    show (shuffleFrom (a :: t) r t.length).1.length = (a :: t).length
    rw [shuffleFrom_length]

/-- Membership after a `HashSet`-style insert. -/
theorem hsInsert_mem (s : List NodeId) (a x : NodeId) (h : x ∈ hsInsert s a) :
    x ∈ s ∨ x = a := by
  unfold hsInsert at h
  by_cases ha : a ∈ s
  · rw [if_pos ha] at h; exact Or.inl h
  · rw [if_neg ha] at h
    simpa using h

/-- Elements of the fold of `HashSet` inserts come from the accumulator or
the inserted list. -/
theorem foldl_hsInsert_mem (x : NodeId) :
    ∀ (l acc : List NodeId), x ∈ l.foldl hsInsert acc → x ∈ acc ∨ x ∈ l := by
  intro l
  induction l with
  | nil => intro acc h; exact Or.inl h
  | cons a t ih =>
    intro acc h
    rcases ih (hsInsert acc a) h with h' | h'
    · rcases hsInsert_mem acc a x h' with h'' | rfl
      · exact Or.inl h''
      · exact Or.inr (List.mem_cons_self ..)
    · exact Or.inr (List.mem_cons_of_mem _ h')

/-- A `HashSet`-style insert never yields the empty set. -/
theorem hsInsert_ne_nil (s : List NodeId) (a : NodeId) : hsInsert s a ≠ [] := by
  unfold hsInsert
  by_cases ha : a ∈ s
  · rw [if_pos ha]
    intro hnil
    rw [hnil] at ha
    exact absurd ha (List.not_mem_nil a)
  · rw [if_neg ha]
    simp

/-- Folding `HashSet` inserts of a nonempty list over any accumulator is
nonempty. -/
theorem foldl_hsInsert_ne_nil :
    ∀ (l acc : List NodeId), acc ≠ [] ∨ l ≠ [] → l.foldl hsInsert acc ≠ [] := by
  intro l
  induction l with
  | nil =>
    intro acc h
    rcases h with h | h
    · exact h
    · exact absurd rfl h
  | cons a t ih =>
    intro acc _
    exact ih (hsInsert acc a) (Or.inl (hsInsert_ne_nil acc a))

/-- An in-bounds `getD` is a member. -/
theorem getD_mem {α : Type} :
    ∀ (l : List α) (i : Nat) (d : α), i < l.length → l.getD i d ∈ l := by
  intro l
  induction l with
  | nil => intro i d h; simp at h
  | cons a t ih =>
    intro i d h
    cases i with
    | zero => simp
    | succ i =>
      simp only [List.getD_cons_succ]
      exact List.mem_cons_of_mem _ (ih i d (by simpa using h))

/-- An in-bounds `getD` at a positive index lies in the tail. -/
theorem getD_mem_drop_one {α : Type} (l : List α) (i : Nat) (d : α)
    (h1 : 1 ≤ i) (h2 : i < l.length) : l.getD i d ∈ l.drop 1 := by
  cases l with
  | nil => simp at h2
  | cons a t =>
    cases i with
    | zero => omega
    | succ i =>
      simp only [List.getD_cons_succ, List.drop_one, List.tail_cons]
      exact getD_mem t i d (by simpa using h2)

/-- Counterexample to Claim C4 as stated: on a Normal→Partition transition
with a single known NodeId, `sample_random_subset(nodes, 1, rng)` returns
the empty set (the candidate index pool `[1 .. 1)` is empty), contradicting
"side_A is never empty"; membership is also not drawn over all `N` NodeIds,
since index 0 is excluded from the pool. -/
theorem c4_subset_counterexample :
    (sample_random_subset [NodeId.node 0] 1 (ChaCha8Rng.seed_from_u64 1)).1 = [] := by
  set_option maxRecDepth 100000 in decide

set_option maxRecDepth 100000 in
/-- Claim C4 (amended): on every Normal→Partition transition, `side_A` is
drawn by taking `k` uniform in `[1, N]` and then up to `k` indices — the
draw is truncated to the candidate pool — of a Fisher–Yates shuffle of the
candidate indices `[1, N)` (index 0 is never a candidate).  Hence, for
distinct known NodeIds: every member of `side_A` is one of the NodeIds
after the first, the first NodeId is never a member, `side_A` is nonempty
whenever `N ≥ 2`, and `side_A` is empty when `N = 1`. -/
theorem c4_subset_amended (nodes : List NodeId) (rng : ChaCha8Rng)
    (hnd : nodes.Nodup) :
    (∀ x ∈ (sample_random_subset nodes 1 rng).1, x ∈ nodes.drop 1) ∧
    (∀ x ∈ (sample_random_subset nodes 1 rng).1, x ≠ nodes.getD 0 default) ∧
    (2 ≤ nodes.length → (sample_random_subset nodes 1 rng).1 ≠ []) ∧
    (nodes.length = 1 → (sample_random_subset nodes 1 rng).1 = []) := by
  have hmem : ∀ x ∈ (sample_random_subset nodes 1 rng).1, x ∈ nodes.drop 1 := by
    intro x hx
    simp only [sample_random_subset] at hx
    rcases foldl_hsInsert_mem x _ _ hx with h | h
    · exact absurd h (List.not_mem_nil x)
    · rcases List.mem_map.mp h with ⟨idx, hidx, rfl⟩
      have hidx' : idx ∈ List.range' 1 (nodes.length - 1) :=
        shuffle_mem _ _ _ (List.mem_of_mem_take hidx)
      have hb := List.mem_range'_1.mp hidx'
      exact getD_mem_drop_one nodes idx default hb.1 (by omega)
  refine ⟨hmem, ?_, ?_, ?_⟩
  · intro x hx
    have hxd := hmem x hx
    cases nodes with
    | nil => simp at hxd
    | cons a t =>
      simp only [List.drop_one, List.tail_cons] at hxd
      simp only [List.getD_cons_zero]
      exact fun hax => (List.nodup_cons.mp hnd).1 (hax ▸ hxd)
  · intro hlen
    unfold sample_random_subset
    apply foldl_hsInsert_ne_nil
    refine Or.inr ?_
    have hpos : 0 <
        (((shuffle (List.range' 1 (nodes.length - 1))
            (rng.gen_range_incl 1 nodes.length).2).1).take
          (rng.gen_range_incl 1 nodes.length).1).length := by
      rw [List.length_take, shuffle_length, List.length_range']
      have h1 : 1 ≤ (rng.gen_range_incl 1 nodes.length).1 :=
        Nat.le_add_right 1 _
      omega
    intro hnil
    have hlen0 := congrArg List.length hnil
    rw [List.length_map, List.length_nil] at hlen0
    omega
  · intro hlen
    unfold sample_random_subset
    rw [hlen]
    simp [shuffle, List.take_nil]

/-- Witness for the amended C4: with two distinct NodeIds the sampled
subset is nonempty, and with a single NodeId it is empty. -/
theorem c4_subset_amended_witness :
    (sample_random_subset [NodeId.node 0, NodeId.node 1] 1
        (ChaCha8Rng.seed_from_u64 7)).1 ≠ [] ∧
    (sample_random_subset [NodeId.node 0] 1 (ChaCha8Rng.seed_from_u64 7)).1 = [] :=
  ⟨(c4_subset_amended [NodeId.node 0, NodeId.node 1]
      (ChaCha8Rng.seed_from_u64 7) (by decide)).2.2.1 (by decide),
    (c4_subset_amended [NodeId.node 0]
      (ChaCha8Rng.seed_from_u64 7) (by decide)).2.2.2 (by decide)⟩

/-! ### Run-loop case reductions and invariants -/

/-- `runStep` on an empty event queue: the `while let` loop exits with
`false`. -/
theorem runStep_nil {M NS CS : Type} (P : Protocol M NS CS)
    (stt : Nat) (net : Network M) (nds : List (Node NS)) (cls : List CS)
    (cfg : Configuration) (rng : ChaCha8Rng) (el epc tec tmc : Nat) :
    Simulator.runStep P ⟨stt, net, nds, cls, [], cfg, rng, el, epc, tec, tmc⟩ =
      (.done false, []) := rfl

/-- `runStep` on a nonempty event queue, fully reduced to the three-way
branch of the loop body. -/
theorem runStep_cons {M NS CS : Type} (P : Protocol M NS CS)
    (stt : Nat) (net : Network M) (nds : List (Node NS)) (cls : List CS)
    (et : EventTime) (ev : Event M) (rest : List (EventTime × Event M))
    (cfg : Configuration) (rng : ChaCha8Rng) (el epc tec tmc : Nat) :
    Simulator.runStep P
        ⟨stt, net, nds, cls, (et, ev) :: rest, cfg, rng, el, epc, tec, tmc⟩ =
      (if cfg.max_sim_time < et.time - stt then (.done false, [])
      else if cls.all P.client.finished then (.done true, [.checked])
      else
        let he := Simulator.handle_event P et.time ev
          ⟨stt, net, nds, cls, rest, cfg, rng, et.time - stt, epc + 1, tec, tmc⟩
        (.next (processSends P et.time he.1 he.2),
          if (he.2).event_processed_count % (he.2).config.check_invariants_frequency
              = 0 then
            [traceOf P et ev, TraceEntry.checked]
          else [traceOf P et ev])) := rfl

/-- Transport of a state predicate along the optional result of `iterate`. -/
def holdsOpt {M NS CS : Type} (p : Simulator M NS CS → Prop) :
    Option (Simulator M NS CS) → Prop
  | none => True
  | some s => p s

/-! ### Claim C2 -/

/-- The number of wrappers currently in `Failed` state. -/
def failedCount {NS : Type} (nodes : List (Node NS)) : Nat :=
  nodes.countP fun n => n.state.is_failed

/-- A `has_failed` step ends `Failed` only if the wrapper already was
`Failed` or the step was authorized by `can_fail`: `Normal → Failed`
requires `can_fail`. -/
theorem has_failed_is_failed_le {NS M : Type} (impl : DeterministicNode NS M)
    (self : Node NS) (now : Nat) (can_fail : Bool) (rand : ChaCha8Rng) :
    ((Node.has_failed impl self now can_fail rand).2.1).state.is_failed ≤
      (self.state.is_failed || can_fail) := by
  obtain ⟨nd, st, fc, rc, stt⟩ := self
  cases st with
  | normal ft =>
    cases ft with
    | none => simp [Node.has_failed, NodeState.is_failed]
    | some fl =>
      by_cases h : (fl ≤ now && can_fail) = true
      · have hcf : can_fail = true := (Bool.and_eq_true _ _ |>.mp h).2
        simp [Node.has_failed, h, NodeState.is_failed, hcf]
      · simp [Node.has_failed, h, NodeState.is_failed]
  | failed rt =>
    by_cases h : rt ≤ now
    · simp [Node.has_failed, h, NodeState.is_failed]
    · simp [Node.has_failed, h, NodeState.is_failed]

/-- The wrapper state after `tick` is the state left by its `has_failed`
step (`can_fail = false`). -/
theorem tick_state_eq {NS M : Type} (impl : DeterministicNode NS M)
    (self : Node NS) (now : Nat) (rand : ChaCha8Rng) :
    ((Node.tick impl self now rand).2.1).state =
      ((Node.has_failed impl self now false rand).2.1).state := by
  delta Node.tick
  rcases h : Node.has_failed impl self now false rand with ⟨f, n', r'⟩
  simp only [h]
  cases f <;> rfl

/-- The wrapper state after `process_message` is the state left by its
`has_failed` step. -/
theorem process_message_state_eq {NS M : Type} (impl : DeterministicNode NS M)
    (self : Node NS) (msg : M) (now : Nat) (can_fail : Bool)
    (rand : ChaCha8Rng) :
    ((Node.process_message impl self msg now can_fail rand).2.1).state =
      ((Node.has_failed impl self now can_fail rand).2.1).state := by
  delta Node.process_message
  rcases h : Node.has_failed impl self now can_fail rand with ⟨f, n', r'⟩
  simp only [h]
  cases f <;> rfl

/-- Ticks never create failures. -/
theorem tick_is_failed_le {NS M : Type} (impl : DeterministicNode NS M)
    (self : Node NS) (now : Nat) (rand : ChaCha8Rng) :
    ((Node.tick impl self now rand).2.1).state.is_failed ≤
      self.state.is_failed := by
  rw [tick_state_eq]
  have h := has_failed_is_failed_le impl self now false rand
  simpa using h

/-- Ticking all wrappers preserves the node-list length. -/
theorem tickNodes_length {M NS CS : Type} (P : Protocol M NS CS) (now : Nat) :
    ∀ (ns : List (Node NS)) (rng : ChaCha8Rng),
      ((tickNodes P now ns rng).1).length = ns.length := by
  intro ns
  induction ns with
  | nil => intro rng; rfl
  | cons n rest ih =>
    intro rng
    simp only [tickNodes, List.length_cons]
    rw [ih]

/-- Ticking all wrappers never increases the `Failed` count. -/
theorem tickNodes_failedCount {M NS CS : Type} (P : Protocol M NS CS)
    (now : Nat) :
    ∀ (ns : List (Node NS)) (rng : ChaCha8Rng),
      failedCount (tickNodes P now ns rng).1 ≤ failedCount ns := by
  intro ns
  induction ns with
  | nil => intro rng; exact Nat.le_refl 0
  | cons n rest ih =>
    intro rng
    simp only [tickNodes, failedCount, List.countP_cons]
    have h1 := ih (Node.tick P.node n now rng).2.2
    have h2 := tick_is_failed_le P.node n now rng
    have h3 : (if ((Node.tick P.node n now rng).2.1).state.is_failed = true
        then 1 else 0) ≤ (if n.state.is_failed = true then 1 else 0) := by
      rcases hb : ((Node.tick P.node n now rng).2.1).state.is_failed with _ | _
      · simp
      · rw [hb] at h2
        have := Bool.le_iff_imp.mp h2 rfl
        simp [this]
    exact Nat.add_le_add h1 h3

/-- `push_event` does not change the wrapped nodes. -/
theorem push_event_nodes {M NS CS : Type} (s : Simulator M NS CS) (t : Nat)
    (ev : Event M) : (s.push_event t ev).nodes = s.nodes := rfl

/-- Enqueuing delivery intents does not change the wrapped nodes. -/
theorem pushDelivered_nodes {M NS CS : Type} (now mid : Nat) :
    ∀ (ds : List (DeliverMessage M)) (s : Simulator M NS CS),
      (pushDelivered now mid ds s).nodes = s.nodes := by
  intro ds
  induction ds with
  | nil => intro s; rfl
  | cons d rest ih => intro s; exact ih _

/-- Routing emitted messages does not change the wrapped nodes. -/
theorem processSends_nodes {M NS CS : Type} (P : Protocol M NS CS) (now : Nat) :
    ∀ (ms : List M) (s : Simulator M NS CS),
      (processSends P now ms s).nodes = s.nodes := by
  intro ms
  induction ms with
  | nil => intro s; rfl
  | cons m rest ih =>
    intro s
    rw [processSends, ih, pushDelivered_nodes]

/-- Every `Failed` wrapper counts against the not-up census used by
`can_additional_node_fail`. -/
theorem failedCount_le_notUp {NS M : Type} (impl : DeterministicNode NS M)
    (ns : List (Node NS)) :
    failedCount ns ≤ ns.countP fun n => !(Node.is_up impl n) := by
  apply List.countP_mono_left
  intro n _ h
  simp only [Node.is_up]
  simp only [decide_eq_true_eq] at h
  simp [h]

/-- Case reduction for `handle_event` dispatching a message to a present
server wrapper. -/
theorem handle_event_message_node {M NS CS : Type} (P : Protocol M NS CS)
    (now : Nat) (sm : SimulationMessage M) (s : Simulator M NS CS) (i : Nat)
    (nw : Node NS) (hd : P.destination sm.message = .node i)
    (hn : s.nodes[i]? = some nw) :
    s.handle_event P now (.message sm) =
      ((Node.process_message P.node nw sm.message now
          (Simulator.can_additional_node_fail P s) s.rng).1,
        { s with
          nodes := s.nodes.set i
            (Node.process_message P.node nw sm.message now
              (Simulator.can_additional_node_fail P s) s.rng).2.1,
          rng := (Node.process_message P.node nw sm.message now
            (Simulator.can_additional_node_fail P s) s.rng).2.2 }) := by
  show s.handleMessage P now sm = _
  delta Simulator.handleMessage
  rw [hd]
  show s.handleNodeMsg P now sm i = _
  delta Simulator.handleNodeMsg
  rw [hn]

/-- Case reduction for `handle_event` dispatching a message to a present
client. -/
theorem handle_event_message_client {M NS CS : Type} (P : Protocol M NS CS)
    (now : Nat) (sm : SimulationMessage M) (s : Simulator M NS CS) (i : Nat)
    (c : CS) (hd : P.destination sm.message = .client i)
    (hc : s.clients[i]? = some c) :
    s.handle_event P now (.message sm) =
      ((P.client.process_message c sm.message now).2,
        { s with clients :=
            s.clients.set i (P.client.process_message c sm.message now).1 }) := by
  show s.handleMessage P now sm = _
  delta Simulator.handleMessage
  rw [hd]
  show s.handleClientMsg P now sm i = _
  delta Simulator.handleClientMsg
  rw [hc]

/-- Dispatching one event preserves the quorum bound on `Failed`
wrappers. -/
theorem handle_event_quorum {M NS CS : Type} (P : Protocol M NS CS) (now : Nat)
    (ev : Event M) (s : Simulator M NS CS)
    (h : failedCount s.nodes ≤ s.nodes.length / 2) :
    failedCount ((s.handle_event P now ev).2).nodes ≤
      ((s.handle_event P now ev).2).nodes.length / 2 := by
  cases ev with
  | tick =>
    have hn : ((s.handle_event P now .tick).2).nodes =
        (tickNodes P now s.nodes s.rng).1 := rfl
    rw [hn, tickNodes_length]
    exact le_trans (tickNodes_failedCount P now s.nodes s.rng) h
  | message sm =>
    cases hd : P.destination sm.message with
    | client i =>
      cases hc : s.clients[i]? with
      | none =>
        have hnone : ((s.handle_event P now (.message sm)).2).nodes = s.nodes := by
          show ((s.handleMessage P now sm).2).nodes = s.nodes
          delta Simulator.handleMessage
          rw [hd]
          show ((s.handleClientMsg P now sm i).2).nodes = s.nodes
          delta Simulator.handleClientMsg
          rw [hc]
        rw [hnone]; exact h
      | some c =>
        rw [handle_event_message_client P now sm s i c hd hc]
        exact h
    | node i =>
      cases hn : s.nodes[i]? with
      | none =>
        have hone : ((s.handle_event P now (.message sm)).2).nodes = s.nodes := by
          show ((s.handleMessage P now sm).2).nodes = s.nodes
          delta Simulator.handleMessage
          rw [hd]
          show ((s.handleNodeMsg P now sm i).2).nodes = s.nodes
          delta Simulator.handleNodeMsg
          rw [hn]
        rw [hone]; exact h
      | some nw =>
        rw [handle_event_message_node P now sm s i nw hd hn]
        obtain ⟨hb, hget⟩ := List.getElem?_eq_some.mp hn
        set pm := Node.process_message P.node nw sm.message now
          (Simulator.can_additional_node_fail P s) s.rng with hpm
        simp only [failedCount] at h ⊢
        rw [List.length_set, List.countP_set _ _ _ _ hb]
        have hboole := List.boole_getElem_le_countP
          (fun n => n.state.is_failed) s.nodes i hb
        have h0 : (if (false = true) then 1 else 0) = 0 := rfl
        have h1 : (if (true = true) then 1 else 0) = 1 := rfl
        cases hfail : (pm.2.1).state.is_failed with
        | false =>
          rw [h0]
          omega
        | true =>
          cases hold : s.nodes[i].state.is_failed with
          | true =>
            rw [hold] at hboole
            rw [h1] at hboole
            rw [h1]
            omega
          | false =>
            have hste := process_message_state_eq P.node nw sm.message now
              (Simulator.can_additional_node_fail P s) s.rng
            have hbound := has_failed_is_failed_le P.node nw now
              (Simulator.can_additional_node_fail P s) s.rng
            rw [← hste] at hbound
            rw [hfail] at hbound
            rw [hget] at hold
            rw [hold] at hbound
            simp only [Bool.false_or] at hbound
            have hcf : Simulator.can_additional_node_fail P s = true :=
              Bool.le_iff_imp.mp hbound rfl
            have hlt : (s.nodes.countP fun n => !(Node.is_up P.node n)) <
                s.nodes.length / 2 := by
              have hcf' := hcf
              simp only [Simulator.can_additional_node_fail,
                decide_eq_true_eq] at hcf'
              exact hcf'
            have hfn := failedCount_le_notUp P.node s.nodes
            simp only [failedCount] at hfn
            rw [h0, h1]
            omega

/-- One loop iteration preserves the quorum bound. -/
theorem runStep_quorum {M NS CS : Type} (P : Protocol M NS CS)
    (s s' : Simulator M NS CS)
    (h : failedCount s.nodes ≤ s.nodes.length / 2)
    (hst : (s.runStep P).1 = .next s') :
    failedCount s'.nodes ≤ s'.nodes.length / 2 := by
  obtain ⟨stt, net, nds, cls, evs, cfg, rng, el, epc, tec, tmc⟩ := s
  cases evs with
  | nil => rw [runStep_nil] at hst; exact absurd hst (by simp)
  | cons e rest =>
    obtain ⟨et, ev⟩ := e
    rw [runStep_cons] at hst
    by_cases h1 : cfg.max_sim_time < et.time - stt
    · rw [if_pos h1] at hst; exact absurd hst (by simp)
    · rw [if_neg h1] at hst
      by_cases h2 : cls.all P.client.finished
      · rw [if_pos h2] at hst; exact absurd hst (by simp)
      · rw [if_neg h2] at hst
        simp only [StepResult.next.injEq] at hst
        rw [← hst, processSends_nodes]
        exact handle_event_quorum P et.time ev
          ⟨stt, net, nds, cls, rest, cfg, rng, et.time - stt, epc + 1, tec, tmc⟩ h

/-- The quorum bound holds at every state the run loop passes through,
given it holds initially. -/
theorem iterate_quorum {M NS CS : Type} (P : Protocol M NS CS) :
    ∀ (k : Nat) (s : Simulator M NS CS),
      failedCount s.nodes ≤ s.nodes.length / 2 →
      holdsOpt (fun s' => failedCount s'.nodes ≤ s'.nodes.length / 2)
        (Simulator.iterate P k s) := by
  intro k
  induction k with
  | zero => intro s h; exact h
  | succ k ih =>
    intro s h
    cases hst : (s.runStep P).1 with
    | done b => simp [Simulator.iterate, hst, holdsOpt]
    | next s' =>
      have h' := runStep_quorum P s s' h hst
      simpa [Simulator.iterate, hst] using ih s' h'

/-- Freshly wrapped nodes are all `Normal`. -/
theorem wrapNodes_failedCount {M NS CS : Type} (P : Protocol M NS CS)
    (fc : FailureConfiguration) (stt rc : Nat) :
    ∀ (ns : List NS) (rng : ChaCha8Rng),
      failedCount (wrapNodes P fc stt rc ns rng).1 = 0 := by
  intro ns
  induction ns with
  | nil => intro rng; rfl
  | cons n rest ih =>
    intro rng
    simp only [wrapNodes, failedCount, List.countP_cons]
    have h1 := ih (Node.new P.node n fc rng stt rc).2
    simp only [failedCount] at h1
    rw [h1]
    rfl

/-- A freshly constructed simulator has no `Failed` wrapper. -/
theorem new_failedCount {M NS CS : Type} (P : Protocol M NS CS)
    (start_time : Nat) (nodes : List NS) (clients : List CS)
    (config : Configuration) :
    failedCount (Simulator.new P start_time nodes clients config).nodes = 0 :=
  wrapNodes_failedCount P config.failure_config start_time nodes.length nodes
    (ChaCha8Rng.seed_from_u64 config.seed)

/-- Claim C2: along any run of a freshly constructed simulator, the number
of server wrappers in `Failed` state never exceeds `floor(server_count / 2)`
— in particular at every instant where `can_fail` is computed for a message
dispatched to a server — and a wrapper's `Normal → Failed` transition
occurs only when `can_fail` is true. -/
theorem c2_quorum_preservation :
    (∀ {M NS CS : Type} (P : Protocol M NS CS) (start_time : Nat)
      (nodes : List NS) (clients : List CS) (config : Configuration) (k : Nat),
      holdsOpt (fun s => failedCount s.nodes ≤ s.nodes.length / 2)
        (Simulator.iterate P k (Simulator.new P start_time nodes clients config))) ∧
    (∀ {NS M : Type} (impl : DeterministicNode NS M) (self : Node NS)
      (now : Nat) (can_fail : Bool) (rand : ChaCha8Rng),
      ((Node.has_failed impl self now can_fail rand).2.1).state.is_failed ≤
        (self.state.is_failed || can_fail)) :=
  ⟨fun P start_time nodes clients config k =>
      iterate_quorum P k (Simulator.new P start_time nodes clients config)
        (by rw [new_failedCount]; exact Nat.zero_le _),
    fun impl self now can_fail rand =>
      has_failed_is_failed_le impl self now can_fail rand⟩

/-! ### Claim C9 -/

/-- The lexicographic `EventTime` order, unfolded to arithmetic. -/
theorem EventTime.lt_iff (a b : EventTime) :
    EventTime.lt a b = true ↔
      (a.time < b.time ∨ (a.time = b.time ∧ a.offset < b.offset)) := by
  simp [EventTime.lt]

/-- `EventTime.lt` is irreflexive, hence related keys are distinct. -/
theorem EventTime.ne_of_lt (a b : EventTime) (h : EventTime.lt a b = true) :
    a ≠ b := by
  rw [EventTime.lt_iff] at h
  intro he
  subst he
  omega

/-- `EventTime.lt` is transitive. -/
theorem EventTime.lt_trans (a b c : EventTime) (h1 : EventTime.lt a b = true)
    (h2 : EventTime.lt b c = true) : EventTime.lt a c = true := by
  rw [EventTime.lt_iff] at h1 h2 ⊢
  omega

/-- `EventTime.lt` is total on distinct keys. -/
theorem EventTime.lt_of_not_lt (a b : EventTime)
    (h1 : ¬ EventTime.lt a b = true) (h2 : a ≠ b) :
    EventTime.lt b a = true := by
  rw [EventTime.lt_iff] at h1 ⊢
  have h3 : ¬ (a.time = b.time ∧ a.offset = b.offset) := by
    rintro ⟨ht, ho⟩
    exact h2 (by cases a; cases b; simp_all)
  omega

/-- Elements of a `BTreeMap` insert are the inserted binding or old
bindings. -/
theorem btreeInsert_mem {M : Type} (k : EventTime) (v : Event M)
    (e : EventTime × Event M) :
    ∀ (l : List (EventTime × Event M)), e ∈ btreeInsert k v l →
      e = (k, v) ∨ e ∈ l := by
  intro l
  induction l with
  | nil =>
    intro h
    simp only [btreeInsert] at h
    exact Or.inl (List.mem_singleton.mp h)
  | cons hd tl ih =>
    intro h
    unfold btreeInsert at h
    by_cases h1 : EventTime.lt k hd.1 = true
    · rw [if_pos h1] at h
      rcases List.mem_cons.mp h with h | h
      · exact Or.inl h
      · exact Or.inr h
    · rw [if_neg h1] at h
      by_cases h2 : k = hd.1
      · rw [if_pos h2] at h
        rcases List.mem_cons.mp h with h | h
        · exact Or.inl h
        · exact Or.inr (List.mem_cons_of_mem _ h)
      · rw [if_neg h2] at h
        rcases List.mem_cons.mp h with h | h
        · exact Or.inr (by simp [h])
        · rcases ih h with h' | h'
          · exact Or.inl h'
          · exact Or.inr (List.mem_cons_of_mem _ h')

/-- The inserted binding is in the insert. -/
theorem btreeInsert_self_mem {M : Type} (k : EventTime) (v : Event M) :
    ∀ (l : List (EventTime × Event M)), (k, v) ∈ btreeInsert k v l := by
  intro l
  induction l with
  | nil => simp [btreeInsert]
  | cons hd tl ih =>
    unfold btreeInsert
    by_cases h1 : EventTime.lt k hd.1 = true
    · rw [if_pos h1]; exact List.mem_cons_self ..
    · rw [if_neg h1]
      by_cases h2 : k = hd.1
      · rw [if_pos h2]; exact List.mem_cons_self ..
      · rw [if_neg h2]; exact List.mem_cons_of_mem _ ih

/-- Inserting a key absent from a sorted queue keeps it strictly sorted. -/
theorem btreeInsert_pairwise {M : Type} (k : EventTime) (v : Event M) :
    ∀ (l : List (EventTime × Event M)),
      l.Pairwise (fun a b => EventTime.lt a.1 b.1 = true) →
      (∀ e ∈ l, e.1 ≠ k) →
      (btreeInsert k v l).Pairwise (fun a b => EventTime.lt a.1 b.1 = true) := by
  intro l
  induction l with
  | nil => intro _ _; simp [btreeInsert]
  | cons hd tl ih =>
    intro hs hk
    obtain ⟨hhd, htl⟩ := List.pairwise_cons.mp hs
    unfold btreeInsert
    by_cases h1 : EventTime.lt k hd.1 = true
    · rw [if_pos h1]
      refine List.pairwise_cons.mpr ⟨?_, hs⟩
      intro e he
      rcases List.mem_cons.mp he with rfl | he'
      · exact h1
      · exact EventTime.lt_trans k hd.1 e.1 h1 (hhd e he')
    · rw [if_neg h1]
      by_cases h2 : k = hd.1
      · exact absurd h2.symm (hk hd (List.mem_cons_self ..))
      · rw [if_neg h2]
        refine List.pairwise_cons.mpr ⟨?_, ?_⟩
        · intro e he
          rcases btreeInsert_mem k v e tl he with rfl | he'
          · exact EventTime.lt_of_not_lt k hd.1 h1 h2
          · exact hhd e he'
        · exact ih htl fun e he => hk e (List.mem_cons_of_mem _ he)

/-- The queue well-formedness invariant: every queued tiebreak offset is at
most the event counter, and the queue is strictly sorted by `EventTime`. -/
def queueInv {M NS CS : Type} (s : Simulator M NS CS) : Prop :=
  (∀ e ∈ s.events, (Prod.fst e).offset ≤ s.total_event_count) ∧
  s.events.Pairwise (fun a b => EventTime.lt a.1 b.1 = true)

/-- `push_event` preserves queue well-formedness: the fresh offset
`total_event_count + 1` exceeds every queued offset. -/
theorem push_event_queueInv {M NS CS : Type} (s : Simulator M NS CS) (t : Nat)
    (ev : Event M) (h : queueInv s) : queueInv (s.push_event t ev) := by
  obtain ⟨hoff, hsort⟩ := h
  constructor
  · intro e he
    rcases btreeInsert_mem _ _ e s.events he with rfl | he'
    · exact Nat.le_refl _
    · exact Nat.le_succ_of_le (hoff e he')
  · exact btreeInsert_pairwise _ ev s.events hsort fun e he hne => by
      have hle := hoff e he
      rw [hne] at hle
      simp at hle

/-- `queueInv` only looks at the queue and the event counter. -/
theorem queueInv_congr {M NS CS : Type} (s s' : Simulator M NS CS)
    (hev : s'.events = s.events)
    (htec : s'.total_event_count = s.total_event_count) (h : queueInv s) :
    queueInv s' := by
  obtain ⟨hoff, hsort⟩ := h
  exact ⟨fun e he => htec ▸ hoff e (hev ▸ he), hev ▸ hsort⟩

/-- The message dispatch to a server leaves the queue fields unchanged. -/
theorem handleNodeMsg_queue_fields {M NS CS : Type} (P : Protocol M NS CS)
    (now : Nat) (sm : SimulationMessage M) (i : Nat) (s : Simulator M NS CS) :
    ((s.handleNodeMsg P now sm i).2).events = s.events ∧
    ((s.handleNodeMsg P now sm i).2).total_event_count = s.total_event_count := by
  delta Simulator.handleNodeMsg
  rcases hn : s.nodes[i]? with _ | nw <;> simp [hn]

/-- The message dispatch to a client leaves the queue fields unchanged. -/
theorem handleClientMsg_queue_fields {M NS CS : Type} (P : Protocol M NS CS)
    (now : Nat) (sm : SimulationMessage M) (i : Nat) (s : Simulator M NS CS) :
    ((s.handleClientMsg P now sm i).2).events = s.events ∧
    ((s.handleClientMsg P now sm i).2).total_event_count = s.total_event_count := by
  delta Simulator.handleClientMsg
  rcases hc : s.clients[i]? with _ | c <;> simp [hc]

/-- Dispatching one event preserves queue well-formedness. -/
theorem handle_event_queueInv {M NS CS : Type} (P : Protocol M NS CS)
    (now : Nat) (ev : Event M) (s : Simulator M NS CS) (h : queueInv s) :
    queueInv ((s.handle_event P now ev).2) := by
  cases ev with
  | tick =>
    show queueInv ((s.handleTick P now).2)
    exact push_event_queueInv _ _ _ h
  | message sm =>
    show queueInv ((s.handleMessage P now sm).2)
    delta Simulator.handleMessage
    cases hd : P.destination sm.message with
    | node i =>
      have hf := handleNodeMsg_queue_fields P now sm i s
      exact queueInv_congr s _ hf.1 hf.2 h
    | client i =>
      have hf := handleClientMsg_queue_fields P now sm i s
      exact queueInv_congr s _ hf.1 hf.2 h

/-- Enqueuing delivery intents preserves queue well-formedness. -/
theorem pushDelivered_queueInv {M NS CS : Type} (now mid : Nat) :
    ∀ (ds : List (DeliverMessage M)) (s : Simulator M NS CS),
      queueInv s → queueInv (pushDelivered now mid ds s) := by
  intro ds
  induction ds with
  | nil => intro s h; exact h
  | cons d rest ih =>
    intro s h
    exact ih _ (push_event_queueInv s _ _ h)

/-- Routing emitted messages preserves queue well-formedness. -/
theorem processSends_queueInv {M NS CS : Type} (P : Protocol M NS CS)
    (now : Nat) :
    ∀ (ms : List M) (s : Simulator M NS CS),
      queueInv s → queueInv (processSends P now ms s) := by
  intro ms
  induction ms with
  | nil => intro s h; exact h
  | cons m rest ih =>
    intro s h
    refine ih _ (pushDelivered_queueInv now _ _ _ ?_)
    exact queueInv_congr s _ rfl rfl h

/-- One loop iteration preserves queue well-formedness. -/
theorem runStep_queueInv {M NS CS : Type} (P : Protocol M NS CS)
    (s s' : Simulator M NS CS) (h : queueInv s)
    (hst : (s.runStep P).1 = .next s') : queueInv s' := by
  obtain ⟨stt, net, nds, cls, evs, cfg, rng, el, epc, tec, tmc⟩ := s
  cases evs with
  | nil => rw [runStep_nil] at hst; exact absurd hst (by simp)
  | cons e rest =>
    obtain ⟨et, ev⟩ := e
    rw [runStep_cons] at hst
    by_cases h1 : cfg.max_sim_time < et.time - stt
    · rw [if_pos h1] at hst; exact absurd hst (by simp)
    · rw [if_neg h1] at hst
      by_cases h2 : cls.all P.client.finished
      · rw [if_pos h2] at hst; exact absurd hst (by simp)
      · rw [if_neg h2] at hst
        simp only [StepResult.next.injEq] at hst
        obtain ⟨hoff, hsort⟩ := h
        have hpop : queueInv
            (⟨stt, net, nds, cls, rest, cfg, rng, et.time - stt, epc + 1, tec,
              tmc⟩ : Simulator M NS CS) := by
          refine ⟨?_, (List.pairwise_cons.mp hsort).2⟩
          intro e he
          exact hoff e (List.mem_cons_of_mem _ he)
        rw [← hst]
        exact processSends_queueInv P et.time _ _
          (handle_event_queueInv P et.time ev _ hpop)

/-- Queue well-formedness holds at every state the run loop passes
through, given it holds initially. -/
theorem iterate_queueInv {M NS CS : Type} (P : Protocol M NS CS) :
    ∀ (k : Nat) (s : Simulator M NS CS), queueInv s →
      holdsOpt queueInv (Simulator.iterate P k s) := by
  intro k
  induction k with
  | zero => intro s h; exact h
  | succ k ih =>
    intro s h
    cases hst : (s.runStep P).1 with
    | done b => simp [Simulator.iterate, hst, holdsOpt]
    | next s' =>
      have h' := runStep_queueInv P s s' h hst
      simpa [Simulator.iterate, hst] using ih s' h'

/-- Strictly sorted queues never repeat an `EventTime` key. -/
theorem pairwise_lt_key_nodup {M : Type} (l : List (EventTime × Event M))
    (h : l.Pairwise (fun a b => EventTime.lt a.1 b.1 = true)) :
    (l.map Prod.fst).Nodup := by
  have h' : l.Pairwise (fun a b => a.1 ≠ b.1) :=
    h.imp fun hab => EventTime.ne_of_lt _ _ hab
  show (l.map Prod.fst).Pairwise (· ≠ ·)
  rw [List.pairwise_map]
  exact h'

/-- Claim C9: the tiebreak offset of enqueued events is strictly increasing
over the simulator's lifetime — the initial `Tick` uses offset 0 against an
event counter of 0, every queued offset stays at most `total_event_count`,
and `push_event` uses the freshly incremented counter as the new offset —
therefore the event queue never contains two entries with the same
`EventTime`, and since it is kept strictly sorted by `(time, offset)`,
events at the same virtual instant are dequeued in insertion order. -/
theorem c9_tiebreak_unique :
    (∀ {M NS CS : Type} (P : Protocol M NS CS) (start_time : Nat)
      (nodes : List NS) (clients : List CS) (config : Configuration) (k : Nat),
      holdsOpt (fun s =>
          (∀ e ∈ s.events, (Prod.fst e).offset ≤ s.total_event_count) ∧
          s.events.Pairwise (fun a b => EventTime.lt a.1 b.1 = true) ∧
          (s.events.map Prod.fst).Nodup)
        (Simulator.iterate P k (Simulator.new P start_time nodes clients config))) ∧
    (∀ {M NS CS : Type} (s : Simulator M NS CS) (t : Nat) (ev : Event M),
      (s.push_event t ev).total_event_count = s.total_event_count + 1 ∧
      (⟨t, s.total_event_count + 1⟩, ev) ∈ (s.push_event t ev).events) := by
  constructor
  · intro M NS CS P start_time nodes clients config k
    have hinit : queueInv (Simulator.new P start_time nodes clients config) := by
      constructor
      · intro e he
        have he' : e = (⟨start_time, 0⟩, Event.tick) := List.mem_singleton.mp he
        rw [he']
        exact Nat.zero_le _
      · exact List.pairwise_singleton ..
    have h := iterate_queueInv P k _ hinit
    cases hit : Simulator.iterate P k (Simulator.new P start_time nodes clients config) with
    | none => simp [holdsOpt]
    | some s' =>
      rw [hit] at h
      exact ⟨h.1, h.2, pairwise_lt_key_nodup _ h.2⟩
  · intro M NS CS s t ev
    exact ⟨rfl, btreeInsert_self_mem _ _ _⟩

/-! ### Claim C3 -/

/-- The condition under which the loop body returns `true`: the head event
is within the time budget and every client reports finished. -/
def finishesNow {M NS CS : Type} (P : Protocol M NS CS)
    (s : Simulator M NS CS) : Prop :=
  match s.events with
  | [] => False
  | (et, _) :: _ =>
    et.time - s.start_time ≤ s.config.max_sim_time ∧
    s.clients.all P.client.finished = true

/-- A loop iteration that exits with `true` was in the finishing
condition. -/
theorem runStep_done_true {M NS CS : Type} (P : Protocol M NS CS)
    (s : Simulator M NS CS) (h : (s.runStep P).1 = .done true) :
    finishesNow P s := by
  obtain ⟨stt, net, nds, cls, evs, cfg, rng, el, epc, tec, tmc⟩ := s
  cases evs with
  | nil => rw [runStep_nil] at h; exact absurd h (by simp)
  | cons e rest =>
    obtain ⟨et, ev⟩ := e
    rw [runStep_cons] at h
    by_cases h1 : cfg.max_sim_time < et.time - stt
    · rw [if_pos h1] at h; exact absurd h (by simp)
    · rw [if_neg h1] at h
      by_cases h2 : cls.all P.client.finished
      · exact ⟨Nat.le_of_not_lt h1, h2⟩
      · rw [if_neg h2] at h; exact absurd h (by simp)

/-- Claim C3: `Simulator::run` returns `true` exactly via the
all-clients-finished exit.  The budget check precedes the finished check:
when the popped event's elapsed virtual time exceeds `max_sim_time` the run
returns `false` without dispatching that event (its trace records no
dispatch); the loop body returns `true` — with the invariant checker
invoked once more, recorded as the final `checked` trace entry — iff the
head event is within budget and every client reports `finished()`; and any
full run returning `true` passes through a state satisfying exactly that
condition. -/
theorem c3_run_result :
    (∀ {M NS CS : Type} (P : Protocol M NS CS) (s : Simulator M NS CS)
      (et : EventTime) (ev : Event M) (rest : List (EventTime × Event M)),
      s.events = (et, ev) :: rest →
      s.config.max_sim_time < et.time - s.start_time →
      s.runStep P = (.done false, [])) ∧
    (∀ {M NS CS : Type} (P : Protocol M NS CS) (s : Simulator M NS CS),
      s.runStep P = (.done true, [TraceEntry.checked]) ↔ finishesNow P s) ∧
    (∀ {M NS CS : Type} (P : Protocol M NS CS) (fuel : Nat)
      (s : Simulator M NS CS) (tr : List TraceEntry),
      Simulator.run P fuel s = (some true, tr) →
      ∃ k s', Simulator.iterate P k s = some s' ∧ finishesNow P s') := by
  refine ⟨?_, ?_, ?_⟩
  · intro M NS CS P s et ev rest hev hover
    obtain ⟨stt, net, nds, cls, evs, cfg, rng, el, epc, tec, tmc⟩ := s
    have hev' : evs = (et, ev) :: rest := hev
    subst hev'
    rw [runStep_cons]
    exact if_pos hover
  · intro M NS CS P s
    constructor
    · intro h
      exact runStep_done_true P s (by rw [h])
    · intro h
      obtain ⟨stt, net, nds, cls, evs, cfg, rng, el, epc, tec, tmc⟩ := s
      cases evs with
      | nil => exact absurd h (by intro h'; exact h')
      | cons e rest =>
        obtain ⟨et, ev⟩ := e
        obtain ⟨hle, hfin⟩ := h
        rw [runStep_cons, if_neg (Nat.not_lt.mpr hle), if_pos hfin]
  · intro M NS CS P fuel
    induction fuel with
    | zero =>
      intro s tr hrun
      exact absurd hrun (by simp [Simulator.run])
    | succ fuel ih =>
      intro s tr hrun
      cases hst : (s.runStep P).1 with
      | done b =>
        have hrun' : Simulator.run P (fuel + 1) s = (some b, (s.runStep P).2) := by
          simp only [Simulator.run]
          rw [hst]
        rw [hrun'] at hrun
        have hb : b = true := by
          have := congrArg Prod.fst hrun
          simpa using this
        subst hb
        exact ⟨0, s, rfl, runStep_done_true P s hst⟩
      | next s' =>
        have hrun' : Simulator.run P (fuel + 1) s =
            ((Simulator.run P fuel s').1,
              (s.runStep P).2 ++ (Simulator.run P fuel s').2) := by
          simp only [Simulator.run]
          rw [hst]
        rw [hrun'] at hrun
        have h1 : (Simulator.run P fuel s').1 = some true := by
          have := congrArg Prod.fst hrun
          simpa using this
        obtain ⟨k, s'', hit, hfin⟩ :=
          ih s' (Simulator.run P fuel s').2 (by rw [← h1])
        refine ⟨k + 1, s'', ?_, hfin⟩
        show Simulator.iterate P (k + 1) s = some s''
        simp only [Simulator.iterate]
        rw [hst]
        exact hit

/-- A user protocol whose single client is immediately finished. -/
def doneClientProtocol : Protocol Unit Unit Unit where
  source := fun _ => .node 0
  destination := fun _ => .node 0
  node :=
    { id := fun _ => .node 0
      tick := fun s _ => (s, [])
      process_message := fun s _ _ => (s, [])
      recover := fun s _ _ _ => s
      is_recovering := fun _ => false }
  client :=
    { id := fun _ => .client 0
      tick := fun s _ => (s, [])
      process_message := fun s _ _ => (s, [])
      finished := fun _ => true }

/-- A `NetworkConfig` with all fault injection disabled. -/
def quietNetworkConfig : NetworkConfig where
  min_message_latency := 0
  max_message_latency := 100
  latency_distribution := 5
  duplicate_probability := 0
  hold_probability := 0
  mean_time_between_link_failures := none
  mean_link_recovery_time := 300
  mean_time_between_partitions := none
  mean_partition_recovery_time := 1000

/-- A tiny configuration with a 5-nanosecond budget. -/
def quietConfig : Configuration where
  tick_interval := 50
  max_sim_time := 5
  seed := 1
  check_invariants_frequency := 1
  network_config := quietNetworkConfig
  failure_config := { mean_time_between_failures := none, mean_time_to_recover := 0 }

/-- A concrete quiet network over one server and one client. -/
def quietNetwork : Network Unit where
  links := []
  partitioning :=
    { partition_state := .normal none
      nodes := [NodeId.node 0, NodeId.client 0]
      config := quietNetworkConfig
      simulation_start := 0 }
  config := quietNetworkConfig
  simulation_start := 0

/-- A simulator whose next event is already past the time budget. -/
def overBudgetSim : Simulator Unit Unit Unit where
  start_time := 0
  network := quietNetwork
  nodes := [⟨(), .normal none, quietConfig.failure_config, 1, 0⟩]
  clients := [()]
  events := [(⟨20, 0⟩, Event.tick)]
  config := quietConfig
  rng := ChaCha8Rng.seed_from_u64 1
  elapsed := 0
  event_processed_count := 0
  total_event_count := 0
  total_message_count := 0

/-- A simulator within budget whose only client is finished. -/
def finishedSim : Simulator Unit Unit Unit where
  start_time := 0
  network := quietNetwork
  nodes := [⟨(), .normal none, quietConfig.failure_config, 1, 0⟩]
  clients := [()]
  events := [(⟨0, 0⟩, Event.tick)]
  config := quietConfig
  rng := ChaCha8Rng.seed_from_u64 1
  elapsed := 0
  event_processed_count := 0
  total_event_count := 0
  total_message_count := 0

/-- Witness for C3: the over-budget pop returns `false` with no dispatch;
the finished-client pop returns `true` after one more check; and a full run
returning `true` passed through the finishing condition. -/
theorem c3_run_result_witness :
    (overBudgetSim.runStep unitProtocol = (.done false, [])) ∧
    (finishedSim.runStep doneClientProtocol = (.done true, [TraceEntry.checked])) ∧
    (∃ k s', Simulator.iterate doneClientProtocol k finishedSim = some s' ∧
      finishesNow doneClientProtocol s') := by
  refine ⟨?_, ?_, ?_⟩
  · exact c3_run_result.1 unitProtocol overBudgetSim ⟨20, 0⟩ Event.tick [] rfl
      (by decide)
  · exact (c3_run_result.2.1 doneClientProtocol finishedSim).mpr
      ⟨by decide, by decide⟩
  · exact c3_run_result.2.2 doneClientProtocol 1 finishedSim [TraceEntry.checked]
      (by decide)

/-! ### Claim C1: the RNG stream is threaded, never reseeded -/

/-- Drawing advances only the stream position, never the seed. -/
theorem next_u64_seed (r : ChaCha8Rng) : (r.next_u64).2.seed = r.seed := rfl

/-- `gen_bool` preserves the stream seed. -/
theorem gen_bool_seed (r : ChaCha8Rng) (p : ℚ) :
    (r.gen_bool p).2.seed = r.seed := rfl

/-- `gen_range_incl` preserves the stream seed. -/
theorem gen_range_incl_seed (r : ChaCha8Rng) (lo hi : Nat) :
    (r.gen_range_incl lo hi).2.seed = r.seed := rfl

/-- `expSample` preserves the stream seed. -/
theorem expSample_seed (r : ChaCha8Rng) (rate : ℚ) :
    (r.expSample rate).2.seed = r.seed := rfl

/-- `sample_failure_time` preserves the stream seed. -/
theorem sample_failure_time_seed (t mtf : Nat) (r : ChaCha8Rng) :
    (sample_failure_time t mtf r).2.seed = r.seed := rfl

/-- `gen_up_state` preserves the stream seed. -/
theorem gen_up_state_seed {M : Type} (now : Nat) (r : ChaCha8Rng)
    (cfg : NetworkConfig) :
    (Link.gen_up_state (M := M) now r cfg).2.seed = r.seed := by
  delta Link.gen_up_state
  cases cfg.mean_time_between_link_failures <;> rfl

/-- `Link.new` preserves the stream seed. -/
theorem link_new_seed {M : Type} (cfg : NetworkConfig) (si now : Nat)
    (f t : NodeId) (r : ChaCha8Rng) :
    ((Link.new (M := M) cfg si now f t r)).2.seed = r.seed :=
  gen_up_state_seed now r cfg

/-- `calculate_delay` preserves the stream seed. -/
theorem calculate_delay_seed {M : Type} (self : Link M) (r : ChaCha8Rng) :
    (self.calculate_delay r).2.seed = r.seed := rfl

/-- `mapDelays` preserves the stream seed. -/
theorem mapDelays_seed {M : Type} (self : Link M) :
    ∀ (msgs : List M) (r : ChaCha8Rng), (self.mapDelays msgs r).2.seed = r.seed := by
  intro msgs
  induction msgs with
  | nil => intro r; rfl
  | cons m rest ih =>
    intro r
    exact (ih _).trans (calculate_delay_seed self r)

/-- `deliverUp` preserves the stream seed. -/
theorem deliverUp_seed {M : Type} (self : Link M) (rel : List M) (msg : M)
    (r : ChaCha8Rng) : (self.deliverUp rel msg r).2.2.seed = r.seed := by
  delta Link.deliverUp
  rcases hcoin : r.gen_bool self.config.duplicate_probability with ⟨coin, r2⟩
  simp only [hcoin]
  rcases hmd : self.mapDelays (if coin then rel ++ [msg, msg] else rel ++ [msg]) r2
    with ⟨out, r3⟩
  simp only [hmd]
  have h1 := mapDelays_seed self
    (if coin then rel ++ [msg, msg] else rel ++ [msg]) r2
  rw [hmd] at h1
  have h2 := gen_bool_seed r self.config.duplicate_probability
  rw [hcoin] at h2
  exact h1.trans h2

/-- `check_state_transition` preserves the stream seed. -/
theorem check_state_transition_seed {M : Type} (self : Link M) (now : Nat)
    (r : ChaCha8Rng) : (self.check_state_transition now r).2.2.seed = r.seed := by
  obtain ⟨st, cfg, si, f, t⟩ := self
  cases st with
  | up ef =>
    cases ef with
    | none => rfl
    | some e =>
      simp only [Link.check_state_transition]
      by_cases h : e ≤ now
      · rw [if_pos h]
        by_cases hc : (r.gen_bool cfg.hold_probability).1 = true
        · rw [if_pos hc]
          rw [sample_failure_time_seed, gen_bool_seed]
        · rw [if_neg hc]
          rw [sample_failure_time_seed, gen_bool_seed]
      · rw [if_neg h]
  | tempFailure er =>
    simp only [Link.check_state_transition]
    by_cases h : er ≤ now
    · rw [if_pos h]
      exact gen_up_state_seed now r cfg
    · rw [if_neg h]
  | tempHold er q =>
    simp only [Link.check_state_transition]
    by_cases h : er ≤ now
    · rw [if_pos h]
      exact gen_up_state_seed now r cfg
    · rw [if_neg h]

/-- `Link.send` preserves the stream seed. -/
theorem link_send_seed {M : Type} (self : Link M) (msg : M) (now : Nat)
    (r : ChaCha8Rng) : (self.send msg now r).2.2.seed = r.seed := by
  delta Link.send
  rcases hc : self.check_state_transition now r with ⟨rel, link, r1⟩
  simp only [hc]
  have h1 : r1.seed = r.seed := by
    have h := check_state_transition_seed self now r
    rw [hc] at h
    exact h
  obtain ⟨st', cfg', si', f', t'⟩ := link
  cases st' with
  | up ef => exact (deliverUp_seed ..).trans h1
  | tempFailure er => exact h1
  | tempHold er q => exact h1

/-- `NetworkPartition.new` preserves the stream seed. -/
theorem partition_new_seed (now : Nat) (nodes : List NodeId)
    (cfg : NetworkConfig) (r : ChaCha8Rng) :
    (NetworkPartition.new now nodes cfg r).2.seed = r.seed := by
  delta NetworkPartition.new
  cases cfg.mean_time_between_partitions <;> rfl

/-- The Fisher–Yates loop preserves the stream seed. -/
theorem shuffleFrom_seed {α : Type} :
    ∀ (i : Nat) (l : List α) (r : ChaCha8Rng),
      (shuffleFrom l r i).2.seed = r.seed := by
  intro i
  induction i with
  | zero => intro l r; rfl
  | succ i ih =>
    intro l r
    exact (ih _ _).trans (gen_range_incl_seed r 0 (i + 1))

/-- `shuffle` preserves the stream seed. -/
theorem shuffle_seed {α : Type} (l : List α) (r : ChaCha8Rng) :
    (shuffle l r).2.seed = r.seed := by
  cases l with
  | nil => rfl
  | cons a t => exact shuffleFrom_seed t.length (a :: t) r

/-- `sample_random_subset` preserves the stream seed. -/
theorem sample_random_subset_seed (nodes : List NodeId) (mn : Nat)
    (r : ChaCha8Rng) : (sample_random_subset nodes mn r).2.seed = r.seed := by
  delta sample_random_subset
  rw [shuffle_seed, gen_range_incl_seed]

/-- The partition state machine preserves the stream seed. -/
theorem partition_cst_seed (self : NetworkPartition) (now : Nat)
    (r : ChaCha8Rng) :
    (self.check_partition_state_transition now r).2.seed = r.seed := by
  obtain ⟨ps, nds, cfg, si⟩ := self
  cases ps with
  | normal ep =>
    cases ep with
    | none => rfl
    | some e =>
      simp only [NetworkPartition.check_partition_state_transition]
      by_cases h : e ≤ now
      · rw [if_pos h]
        rw [sample_failure_time_seed, sample_random_subset_seed]
      · rw [if_neg h]
  | partition pn er =>
    simp only [NetworkPartition.check_partition_state_transition]
    by_cases h : er ≤ now
    · rw [if_pos h]
      cases hm : cfg.mean_time_between_partitions with
      | none => rfl
      | some m => rw [sample_failure_time_seed]
    · rw [if_neg h]

/-- The partition query preserves the stream seed. -/
theorem is_partitioned_seed (self : NetworkPartition) (now : Nat)
    (f t : NodeId) (r : ChaCha8Rng) :
    (self.is_partitioned now f t r).2.2.seed = r.seed :=
  partition_cst_seed self now r

/-- `Network.new` preserves the stream seed. -/
theorem network_new_seed {M : Type} (si : Nat) (cfg : NetworkConfig)
    (nodes : List NodeId) (r : ChaCha8Rng) :
    (Network.new (M := M) si cfg nodes r).2.seed = r.seed :=
  partition_new_seed si nodes cfg r

/-- `Network.sendVia` preserves the stream seed. -/
theorem sendVia_seed {M : Type} (net : Network M) (msg : M) (now : Nat)
    (f t : NodeId) (r : ChaCha8Rng) :
    (Network.sendVia net msg now f t r).2.2.seed = r.seed := by
  delta Network.sendVia
  rcases hf : assocFind net.links
      (if NodeId.lt f t then (f, t)
      else if NodeId.lt t f then (t, f) else (f, t)) with _ | l
  · simp only [hf]
    exact (link_send_seed ..).trans (link_new_seed ..)
  · simp only [hf]
    exact link_send_seed ..

/-- `Network.send` preserves the stream seed. -/
theorem network_send_seed {M : Type} (msrc mdst : M → NodeId)
    (net : Network M) (msg : M) (now : Nat) (r : ChaCha8Rng) :
    (Network.send msrc mdst net msg now r).2.2.seed = r.seed := by
  delta Network.send
  rcases hp : net.partitioning.is_partitioned now (msrc msg) (mdst msg) r
    with ⟨b, part, r1⟩
  simp only [hp]
  have h1 : r1.seed = r.seed := by
    have h := is_partitioned_seed net.partitioning now (msrc msg) (mdst msg) r
    rw [hp] at h
    exact h
  cases b with
  | true => exact h1
  | false => exact (sendVia_seed ..).trans h1

/-- `Node.new` preserves the stream seed. -/
theorem node_new_seed {NS M : Type} (impl : DeterministicNode NS M) (n : NS)
    (fc : FailureConfiguration) (r : ChaCha8Rng) (stt rc : Nat) :
    (Node.new impl n fc r stt rc).2.seed = r.seed := by
  delta Node.new
  cases fc.mean_time_between_failures <;> rfl

/-- `has_failed` preserves the stream seed. -/
theorem has_failed_seed {NS M : Type} (impl : DeterministicNode NS M)
    (self : Node NS) (now : Nat) (cf : Bool) (r : ChaCha8Rng) :
    (Node.has_failed impl self now cf r).2.2.seed = r.seed := by
  obtain ⟨nd, st, fc, rc, stt⟩ := self
  cases st with
  | normal ft =>
    cases ft with
    | none => rfl
    | some fl =>
      simp only [Node.has_failed]
      by_cases h : (fl ≤ now && cf) = true
      · rw [if_pos h]
        rw [sample_failure_time_seed]
      · rw [if_neg h]
  | failed rt =>
    simp only [Node.has_failed]
    by_cases h : rt ≤ now
    · rw [if_pos h]
      cases hm : fc.mean_time_between_failures with
      | none => rfl
      | some m => rw [next_u64_seed, sample_failure_time_seed]
    · rw [if_neg h]

/-- `Node.tick` preserves the stream seed. -/
theorem node_tick_seed {NS M : Type} (impl : DeterministicNode NS M)
    (self : Node NS) (now : Nat) (r : ChaCha8Rng) :
    (Node.tick impl self now r).2.2.seed = r.seed := by
  delta Node.tick
  rcases hf : Node.has_failed impl self now false r with ⟨f, n', r'⟩
  simp only [hf]
  have h1 := has_failed_seed impl self now false r
  rw [hf] at h1
  cases f <;> exact h1

/-- `Node.process_message` preserves the stream seed. -/
theorem node_pm_seed {NS M : Type} (impl : DeterministicNode NS M)
    (self : Node NS) (msg : M) (now : Nat) (cf : Bool) (r : ChaCha8Rng) :
    (Node.process_message impl self msg now cf r).2.2.seed = r.seed := by
  delta Node.process_message
  rcases hf : Node.has_failed impl self now cf r with ⟨f, n', r'⟩
  simp only [hf]
  have h1 := has_failed_seed impl self now cf r
  rw [hf] at h1
  cases f <;> exact h1

/-- Wrapping the nodes at construction preserves the stream seed. -/
theorem wrapNodes_seed {M NS CS : Type} (P : Protocol M NS CS)
    (fc : FailureConfiguration) (stt rc : Nat) :
    ∀ (ns : List NS) (r : ChaCha8Rng),
      (wrapNodes P fc stt rc ns r).2.seed = r.seed := by
  intro ns
  induction ns with
  | nil => intro r; rfl
  | cons n rest ih =>
    intro r
    simp only [wrapNodes]
    rw [ih, node_new_seed]

/-- Ticking all wrappers preserves the stream seed. -/
theorem tickNodes_seed {M NS CS : Type} (P : Protocol M NS CS) (now : Nat) :
    ∀ (ns : List (Node NS)) (r : ChaCha8Rng),
      (tickNodes P now ns r).2.2.seed = r.seed := by
  intro ns
  induction ns with
  | nil => intro r; rfl
  | cons n rest ih =>
    intro r
    simp only [tickNodes]
    rw [ih, node_tick_seed]

/-- Enqueuing delivery intents leaves the RNG untouched. -/
theorem pushDelivered_rng {M NS CS : Type} (now mid : Nat) :
    ∀ (ds : List (DeliverMessage M)) (s : Simulator M NS CS),
      (pushDelivered now mid ds s).rng = s.rng := by
  intro ds
  induction ds with
  | nil => intro s; rfl
  | cons d rest ih => intro s; exact ih _

/-- Routing emitted messages preserves the stream seed. -/
theorem processSends_seed {M NS CS : Type} (P : Protocol M NS CS) (now : Nat) :
    ∀ (ms : List M) (s : Simulator M NS CS),
      (processSends P now ms s).rng.seed = s.rng.seed := by
  intro ms
  induction ms with
  | nil => intro s; rfl
  | cons m rest ih =>
    intro s
    simp only [processSends]
    rw [ih, pushDelivered_rng]
    show (Network.send P.source P.destination s.network m now s.rng).2.2.seed =
      s.rng.seed
    exact network_send_seed P.source P.destination s.network m now s.rng

/-- The tick dispatch preserves the stream seed. -/
theorem handleTick_seed {M NS CS : Type} (P : Protocol M NS CS) (now : Nat)
    (s : Simulator M NS CS) :
    ((s.handleTick P now).2).rng.seed = s.rng.seed := by
  show (tickNodes P now s.nodes s.rng).2.2.seed = s.rng.seed
  exact tickNodes_seed P now s.nodes s.rng

/-- The server message dispatch preserves the stream seed. -/
theorem handleNodeMsg_seed {M NS CS : Type} (P : Protocol M NS CS) (now : Nat)
    (sm : SimulationMessage M) (i : Nat) (s : Simulator M NS CS) :
    ((s.handleNodeMsg P now sm i).2).rng.seed = s.rng.seed := by
  delta Simulator.handleNodeMsg
  rcases hn : s.nodes[i]? with _ | nw
  · simp [hn]
  · simp only [hn]
    show (Node.process_message P.node nw sm.message now
      (Simulator.can_additional_node_fail P s) s.rng).2.2.seed = s.rng.seed
    exact node_pm_seed ..

/-- The client message dispatch leaves the RNG untouched. -/
theorem handleClientMsg_seed {M NS CS : Type} (P : Protocol M NS CS)
    (now : Nat) (sm : SimulationMessage M) (i : Nat) (s : Simulator M NS CS) :
    ((s.handleClientMsg P now sm i).2).rng.seed = s.rng.seed := by
  delta Simulator.handleClientMsg
  rcases hc : s.clients[i]? with _ | c <;> simp [hc]

/-- Dispatching one event preserves the stream seed. -/
theorem handle_event_seed {M NS CS : Type} (P : Protocol M NS CS) (now : Nat)
    (ev : Event M) (s : Simulator M NS CS) :
    ((s.handle_event P now ev).2).rng.seed = s.rng.seed := by
  cases ev with
  | tick => exact handleTick_seed P now s
  | message sm =>
    show ((s.handleMessage P now sm).2).rng.seed = s.rng.seed
    delta Simulator.handleMessage
    cases hd : P.destination sm.message with
    | node i => exact handleNodeMsg_seed P now sm i s
    | client i => exact handleClientMsg_seed P now sm i s

/-- A non-terminating loop iteration preserves the stream seed. -/
theorem runStep_seed {M NS CS : Type} (P : Protocol M NS CS)
    (s s' : Simulator M NS CS) (hst : (s.runStep P).1 = .next s') :
    s'.rng.seed = s.rng.seed := by
  obtain ⟨stt, net, nds, cls, evs, cfg, rng, el, epc, tec, tmc⟩ := s
  cases evs with
  | nil => rw [runStep_nil] at hst; exact absurd hst (by simp)
  | cons e rest =>
    obtain ⟨et, ev⟩ := e
    rw [runStep_cons] at hst
    by_cases h1 : cfg.max_sim_time < et.time - stt
    · rw [if_pos h1] at hst; exact absurd hst (by simp)
    · rw [if_neg h1] at hst
      by_cases h2 : cls.all P.client.finished
      · rw [if_pos h2] at hst; exact absurd hst (by simp)
      · rw [if_neg h2] at hst
        simp only [StepResult.next.injEq] at hst
        rw [← hst]
        rw [processSends_seed]
        exact handle_event_seed P et.time ev _

/-- The state after one loop iteration (the same state when the loop
returned). -/
def Simulator.runStepState {M NS CS : Type} (P : Protocol M NS CS)
    (s : Simulator M NS CS) : Simulator M NS CS :=
  match (s.runStep P).1 with
  | .done _ => s
  | .next s' => s'

/-- The loop body never reseeds the RNG. -/
theorem runStepState_seed {M NS CS : Type} (P : Protocol M NS CS)
    (s : Simulator M NS CS) :
    (Simulator.runStepState P s).rng.seed = s.rng.seed := by
  delta Simulator.runStepState
  cases hst : (s.runStep P).1 with
  | done b => rfl
  | next s' => exact runStep_seed P s s' hst

/-- Construction seeds the RNG exactly once, from `config.seed`. -/
theorem new_rng_seed {M NS CS : Type} (P : Protocol M NS CS)
    (start_time : Nat) (nodes : List NS) (clients : List CS)
    (config : Configuration) :
    (Simulator.new P start_time nodes clients config).rng.seed =
      config.seed % 2 ^ 64 := by
  show (Network.new (M := M) start_time config.network_config
      ((List.range ((wrapNodes P config.failure_config start_time nodes.length
          nodes (ChaCha8Rng.seed_from_u64 config.seed)).1).length).map NodeId.node ++
        (List.range clients.length).map NodeId.client)
      (wrapNodes P config.failure_config start_time nodes.length nodes
        (ChaCha8Rng.seed_from_u64 config.seed)).2).2.seed = config.seed % 2 ^ 64
  rw [network_new_seed, wrapNodes_seed]
  rfl

/-- Claim C1: for a fixed seed, configuration and user protocol, two
executions of `Simulator::run` produce identical results and identical
traces of processed events (their `(event_time, event_kind, message_source,
message_destination)` data); the RNG is seeded exactly once, from
`config.seed`, at construction; and the run loop only advances the single
ChaCha8 stream — no step ever changes its seed, so every stochastic draw
in a run comes from that one stream. -/
theorem c1_determinism :
    (∀ {M NS CS : Type} (P : Protocol M NS CS) (start_time : Nat)
      (nodes : List NS) (clients : List CS) (config : Configuration)
      (fuel : Nat),
      Simulator.run P fuel (Simulator.new P start_time nodes clients config) =
        Simulator.run P fuel (Simulator.new P start_time nodes clients config)) ∧
    (∀ {M NS CS : Type} (P : Protocol M NS CS) (start_time : Nat)
      (nodes : List NS) (clients : List CS) (config : Configuration),
      (Simulator.new P start_time nodes clients config).rng.seed =
        config.seed % 2 ^ 64) ∧
    (∀ {M NS CS : Type} (P : Protocol M NS CS) (s : Simulator M NS CS),
      (Simulator.runStepState P s).rng.seed = s.rng.seed) :=
  ⟨fun _ _ _ _ _ _ => rfl,
    fun P start_time nodes clients config =>
      new_rng_seed P start_time nodes clients config,
    fun P s => runStepState_seed P s⟩

/-- Overriding the `mean_time_to_recover` field, to state that the field
is never read. -/
def FailureConfiguration.withMttr (fc : FailureConfiguration) (v : Nat) :
    FailureConfiguration :=
  { fc with mean_time_to_recover := v }

/-- Overriding `mean_time_to_recover` inside a full configuration. -/
def Configuration.withMttr (c : Configuration) (v : Nat) : Configuration :=
  { c with failure_config := c.failure_config.withMttr v }

/-- Overriding `mean_time_to_recover` inside a node wrapper. -/
def Node.withMttr {NS : Type} (n : Node NS) (v : Nat) : Node NS :=
  { n with failure_config := n.failure_config.withMttr v }

/-- Overriding `mean_time_to_recover` everywhere in a simulator state. -/
def Simulator.withMttr {M NS CS : Type} (s : Simulator M NS CS) (v : Nat) :
    Simulator M NS CS :=
  { s with
    nodes := s.nodes.map (fun n => Node.withMttr n v)
    config := s.config.withMttr v }

/-- Overriding `mean_time_to_recover` in a loop-iteration outcome. -/
def StepResult.withMttr {M NS CS : Type} (r : StepResult M NS CS) (v : Nat) :
    StepResult M NS CS :=
  match r with
  | .done b => .done b
  | .next s => .next (Simulator.withMttr s v)

/-- `Node.new` never reads `mean_time_to_recover`. -/
theorem node_new_mttr {NS M : Type} (impl : DeterministicNode NS M) (n : NS)
    (fc : FailureConfiguration) (v : Nat) (r : ChaCha8Rng) (stt rc : Nat) :
    Node.new impl n (fc.withMttr v) r stt rc =
      (Node.withMttr (Node.new impl n fc r stt rc).1 v,
        (Node.new impl n fc r stt rc).2) := by
  obtain ⟨mtbf, mttr⟩ := fc
  show Node.new impl n ⟨mtbf, v⟩ r stt rc = _
  cases mtbf <;> rfl

/-- `has_failed` never reads `mean_time_to_recover`. -/
theorem has_failed_mttr {NS M : Type} (impl : DeterministicNode NS M)
    (self : Node NS) (v now : Nat) (cf : Bool) (r : ChaCha8Rng) :
    Node.has_failed impl (Node.withMttr self v) now cf r =
      ((Node.has_failed impl self now cf r).1,
        Node.withMttr ((Node.has_failed impl self now cf r).2.1) v,
        (Node.has_failed impl self now cf r).2.2) := by
  obtain ⟨nd, st, ⟨mtbf, mttr⟩, rc, stt⟩ := self
  show Node.has_failed impl ⟨nd, st, ⟨mtbf, v⟩, rc, stt⟩ now cf r = _
  cases st with
  | normal ft =>
    cases ft with
    | none => rfl
    | some fl =>
      simp only [Node.has_failed]
      by_cases h : (fl ≤ now && cf) = true
      · rw [if_pos h, if_pos h]; rfl
      · rw [if_neg h, if_neg h]; rfl
  | failed rt =>
    simp only [Node.has_failed]
    by_cases h : rt ≤ now
    · rw [if_pos h, if_pos h]
      cases mtbf <;> rfl
    · rw [if_neg h, if_neg h]; rfl

/-- `is_up` never reads `mean_time_to_recover`. -/
theorem is_up_mttr {NS M : Type} (impl : DeterministicNode NS M)
    (n : Node NS) (v : Nat) :
    Node.is_up impl (Node.withMttr n v) = Node.is_up impl n := rfl

/-- `Node.tick` never reads `mean_time_to_recover`. -/
theorem node_tick_mttr {NS M : Type} (impl : DeterministicNode NS M)
    (self : Node NS) (v now : Nat) (r : ChaCha8Rng) :
    Node.tick impl (Node.withMttr self v) now r =
      ((Node.tick impl self now r).1,
        Node.withMttr ((Node.tick impl self now r).2.1) v,
        (Node.tick impl self now r).2.2) := by
  simp only [Node.tick]
  rw [has_failed_mttr]
  rcases hf : Node.has_failed impl self now false r with ⟨f, n', r'⟩
  simp only [hf]
  cases f <;> rfl

/-- `Node.process_message` never reads `mean_time_to_recover`. -/
theorem node_pm_mttr {NS M : Type} (impl : DeterministicNode NS M)
    (self : Node NS) (msg : M) (v now : Nat) (cf : Bool) (r : ChaCha8Rng) :
    Node.process_message impl (Node.withMttr self v) msg now cf r =
      ((Node.process_message impl self msg now cf r).1,
        Node.withMttr ((Node.process_message impl self msg now cf r).2.1) v,
        (Node.process_message impl self msg now cf r).2.2) := by
  simp only [Node.process_message]
  rw [has_failed_mttr]
  rcases hf : Node.has_failed impl self now cf r with ⟨f, n', r'⟩
  simp only [hf]
  cases f <;> rfl

/-- Wrapping the nodes never reads `mean_time_to_recover`. -/
theorem wrapNodes_mttr {M NS CS : Type} (P : Protocol M NS CS)
    (fc : FailureConfiguration) (v stt rc : Nat) :
    ∀ (ns : List NS) (r : ChaCha8Rng),
      wrapNodes P (fc.withMttr v) stt rc ns r =
        (((wrapNodes P fc stt rc ns r).1).map (fun n => Node.withMttr n v),
          (wrapNodes P fc stt rc ns r).2) := by
  intro ns
  induction ns with
  | nil => intro r; rfl
  | cons n rest ih =>
    intro r
    simp only [wrapNodes]
    rw [node_new_mttr]
    rw [ih]
    rfl

/-- Ticking the wrappers never reads `mean_time_to_recover`. -/
theorem tickNodes_mttr {M NS CS : Type} (P : Protocol M NS CS) (now v : Nat) :
    ∀ (ns : List (Node NS)) (r : ChaCha8Rng),
      tickNodes P now (ns.map (fun n => Node.withMttr n v)) r =
        (((tickNodes P now ns r).1).map (fun n => Node.withMttr n v),
          (tickNodes P now ns r).2.1, (tickNodes P now ns r).2.2) := by
  intro ns
  induction ns with
  | nil => intro r; rfl
  | cons n rest ih =>
    intro r
    simp only [List.map_cons, tickNodes]
    rw [node_tick_mttr]
    rw [ih]

/-- The not-up census never reads `mean_time_to_recover`. -/
theorem countP_notUp_mttr {NS M : Type} (impl : DeterministicNode NS M)
    (v : Nat) :
    ∀ ns : List (Node NS),
      (ns.map (fun n => Node.withMttr n v)).countP
          (fun n => !(Node.is_up impl n)) =
        ns.countP (fun n => !(Node.is_up impl n)) := by
  intro ns
  induction ns with
  | nil => rfl
  | cons n rest ih =>
    simp only [List.map_cons, List.countP_cons, ih, is_up_mttr]

/-- `push_event` never reads `mean_time_to_recover`. -/
theorem push_event_mttr {M NS CS : Type} (s : Simulator M NS CS)
    (v t : Nat) (e : Event M) :
    Simulator.push_event (Simulator.withMttr s v) t e =
      Simulator.withMttr (Simulator.push_event s t e) v := by
  obtain ⟨stt, net, nds, cls, evs, cfg, rng, el, epc, tec, tmc⟩ := s
  rfl

/-- The failure-authorization census never reads `mean_time_to_recover`. -/
theorem can_fail_mttr {M NS CS : Type} (P : Protocol M NS CS)
    (s : Simulator M NS CS) (v : Nat) :
    Simulator.can_additional_node_fail P (Simulator.withMttr s v) =
      Simulator.can_additional_node_fail P s := by
  delta Simulator.can_additional_node_fail
  have h1 : (Simulator.withMttr s v).nodes =
      s.nodes.map (fun n => Node.withMttr n v) := rfl
  rw [h1, List.length_map, countP_notUp_mttr]

/-- The server message dispatch never reads `mean_time_to_recover`. -/
theorem handleNodeMsg_mttr {M NS CS : Type} (P : Protocol M NS CS)
    (now : Nat) (sm : SimulationMessage M) (i : Nat)
    (s : Simulator M NS CS) (v : Nat) :
    Simulator.handleNodeMsg P now sm i (Simulator.withMttr s v) =
      ((Simulator.handleNodeMsg P now sm i s).1,
        Simulator.withMttr (Simulator.handleNodeMsg P now sm i s).2 v) := by
  simp only [Simulator.handleNodeMsg]
  have h1 : (Simulator.withMttr s v).nodes =
      s.nodes.map (fun n => Node.withMttr n v) := rfl
  have h2 : (Simulator.withMttr s v).rng = s.rng := rfl
  rw [h1, h2, List.getElem?_map]
  cases hn : s.nodes[i]? with
  | none => simp [hn]
  | some nw =>
    simp only [hn, Option.map_some']
    rw [can_fail_mttr, node_pm_mttr]
    rw [← List.map_set]
    rfl

/-- The client message dispatch never reads `mean_time_to_recover`. -/
theorem handleClientMsg_mttr {M NS CS : Type} (P : Protocol M NS CS)
    (now : Nat) (sm : SimulationMessage M) (i : Nat)
    (s : Simulator M NS CS) (v : Nat) :
    Simulator.handleClientMsg P now sm i (Simulator.withMttr s v) =
      ((Simulator.handleClientMsg P now sm i s).1,
        Simulator.withMttr (Simulator.handleClientMsg P now sm i s).2 v) := by
  simp only [Simulator.handleClientMsg]
  have h1 : (Simulator.withMttr s v).clients = s.clients := rfl
  rw [h1]
  cases hc : s.clients[i]? with
  | none => simp [hc]
  | some c =>
    simp only [hc]
    rfl

/-- The tick dispatch never reads `mean_time_to_recover`. -/
theorem handleTick_mttr {M NS CS : Type} (P : Protocol M NS CS) (now : Nat)
    (s : Simulator M NS CS) (v : Nat) :
    Simulator.handleTick P now (Simulator.withMttr s v) =
      ((Simulator.handleTick P now s).1,
        Simulator.withMttr (Simulator.handleTick P now s).2 v) := by
  simp only [Simulator.handleTick]
  have h1 : (Simulator.withMttr s v).nodes =
      s.nodes.map (fun n => Node.withMttr n v) := rfl
  have h2 : (Simulator.withMttr s v).rng = s.rng := rfl
  have h3 : (Simulator.withMttr s v).clients = s.clients := rfl
  rw [h1, h2, h3, tickNodes_mttr]
  rfl

/-- `handle_event` never reads `mean_time_to_recover`. -/
theorem handle_event_mttr {M NS CS : Type} (P : Protocol M NS CS) (now : Nat)
    (ev : Event M) (s : Simulator M NS CS) (v : Nat) :
    Simulator.handle_event P now ev (Simulator.withMttr s v) =
      ((Simulator.handle_event P now ev s).1,
        Simulator.withMttr (Simulator.handle_event P now ev s).2 v) := by
  cases ev with
  | tick => exact handleTick_mttr P now s v
  | message sm =>
    show Simulator.handleMessage P now sm (Simulator.withMttr s v) =
      ((Simulator.handleMessage P now sm s).1,
        Simulator.withMttr (Simulator.handleMessage P now sm s).2 v)
    cases hd : P.destination sm.message with
    | node i =>
      have hL : Simulator.handleMessage P now sm (Simulator.withMttr s v) =
          Simulator.handleNodeMsg P now sm i (Simulator.withMttr s v) := by
        delta Simulator.handleMessage; rw [hd]
      have hR : Simulator.handleMessage P now sm s =
          Simulator.handleNodeMsg P now sm i s := by
        delta Simulator.handleMessage; rw [hd]
      rw [hL, hR]
      exact handleNodeMsg_mttr P now sm i s v
    | client i =>
      have hL : Simulator.handleMessage P now sm (Simulator.withMttr s v) =
          Simulator.handleClientMsg P now sm i (Simulator.withMttr s v) := by
        delta Simulator.handleMessage; rw [hd]
      have hR : Simulator.handleMessage P now sm s =
          Simulator.handleClientMsg P now sm i s := by
        delta Simulator.handleMessage; rw [hd]
      rw [hL, hR]
      exact handleClientMsg_mttr P now sm i s v

/-- Enqueuing delivery intents never reads `mean_time_to_recover`. -/
theorem pushDelivered_mttr {M NS CS : Type} (now mid v : Nat) :
    ∀ (ds : List (DeliverMessage M)) (s : Simulator M NS CS),
      pushDelivered now mid ds (Simulator.withMttr s v) =
        Simulator.withMttr (pushDelivered now mid ds s) v := by
  intro ds
  induction ds with
  | nil => intro s; rfl
  | cons d rest ih =>
    intro s
    simp only [pushDelivered]
    rw [push_event_mttr, ih]

/-- Routing the emitted messages never reads `mean_time_to_recover`. -/
theorem processSends_mttr {M NS CS : Type} (P : Protocol M NS CS)
    (now v : Nat) :
    ∀ (ms : List M) (s : Simulator M NS CS),
      processSends P now ms (Simulator.withMttr s v) =
        Simulator.withMttr (processSends P now ms s) v := by
  intro ms
  induction ms with
  | nil => intro s; rfl
  | cons m rest ih =>
    intro s
    simp only [processSends]
    show processSends P now rest
        (pushDelivered now (s.total_message_count + 1)
          (Network.send P.source P.destination s.network m now s.rng).1
          (Simulator.withMttr
            { s with
              total_message_count := s.total_message_count + 1
              network :=
                (Network.send P.source P.destination s.network m now s.rng).2.1
              rng :=
                (Network.send P.source P.destination s.network m now
                  s.rng).2.2 }
            v)) =
      Simulator.withMttr
        (processSends P now rest
          (pushDelivered now (s.total_message_count + 1)
            (Network.send P.source P.destination s.network m now s.rng).1
            { s with
              total_message_count := s.total_message_count + 1
              network :=
                (Network.send P.source P.destination s.network m now s.rng).2.1
              rng :=
                (Network.send P.source P.destination s.network m now
                  s.rng).2.2 }))
        v
    rw [pushDelivered_mttr, ih]

/-- The processed-event counter ignores the `mean_time_to_recover`
override. -/
theorem withMttr_epc {M NS CS : Type} (s : Simulator M NS CS) (v : Nat) :
    (Simulator.withMttr s v).event_processed_count =
      s.event_processed_count := rfl

/-- The checker stride ignores the `mean_time_to_recover` override. -/
theorem withMttr_cif {M NS CS : Type} (s : Simulator M NS CS) (v : Nat) :
    (Simulator.withMttr s v).config.check_invariants_frequency =
      s.config.check_invariants_frequency := rfl

/-- One loop iteration never reads `mean_time_to_recover`. -/
theorem runStep_mttr {M NS CS : Type} (P : Protocol M NS CS)
    (s : Simulator M NS CS) (v : Nat) :
    Simulator.runStep P (Simulator.withMttr s v) =
      (StepResult.withMttr (Simulator.runStep P s).1 v,
        (Simulator.runStep P s).2) := by
  obtain ⟨stt, net, nds, cls, evs, cfg, rng, el, epc, tec, tmc⟩ := s
  cases evs with
  | nil =>
    show Simulator.runStep P
        ⟨stt, net, nds.map (fun n => Node.withMttr n v), cls, [],
          Configuration.withMttr cfg v, rng, el, epc, tec, tmc⟩ = _
    rw [runStep_nil, runStep_nil]
    rfl
  | cons e rest =>
    obtain ⟨et, ev⟩ := e
    show Simulator.runStep P
        ⟨stt, net, nds.map (fun n => Node.withMttr n v), cls, (et, ev) :: rest,
          Configuration.withMttr cfg v, rng, el, epc, tec, tmc⟩ = _
    rw [runStep_cons, runStep_cons]
    have hms : (Configuration.withMttr cfg v).max_sim_time =
        cfg.max_sim_time := rfl
    rw [hms]
    by_cases h1 : cfg.max_sim_time < et.time - stt
    · rw [if_pos h1, if_pos h1]
      rfl
    · rw [if_neg h1, if_neg h1]
      by_cases h2 : cls.all P.client.finished
      · rw [if_pos h2, if_pos h2]
        rfl
      · rw [if_neg h2, if_neg h2]
        rw [show (⟨stt, net, nds.map (fun n => Node.withMttr n v), cls, rest,
              Configuration.withMttr cfg v, rng, et.time - stt, epc + 1, tec,
              tmc⟩ : Simulator M NS CS) =
            Simulator.withMttr
              ⟨stt, net, nds, cls, rest, cfg, rng, et.time - stt, epc + 1,
                tec, tmc⟩ v from rfl]
        simp only [handle_event_mttr, processSends_mttr, StepResult.withMttr,
          withMttr_epc, withMttr_cif]

/-- `Simulator.run` never reads `mean_time_to_recover`. -/
theorem run_mttr {M NS CS : Type} (P : Protocol M NS CS) :
    ∀ (fuel : Nat) (s : Simulator M NS CS) (v : Nat),
      Simulator.run P fuel (Simulator.withMttr s v) =
        Simulator.run P fuel s := by
  intro fuel
  induction fuel with
  | zero => intro s v; rfl
  | succ fuel ih =>
    intro s v
    simp only [Simulator.run]
    rw [runStep_mttr]
    cases hst : (Simulator.runStep P s).1 with
    | done b => simp [StepResult.withMttr, hst]
    | next s' => simp [StepResult.withMttr, hst, ih]

/-- Construction commutes with the `mean_time_to_recover` override. -/
theorem new_mttr {M NS CS : Type} (P : Protocol M NS CS) (stt : Nat)
    (nodes : List NS) (clients : List CS) (config : Configuration)
    (v : Nat) :
    Simulator.new P stt nodes clients (Configuration.withMttr config v) =
      Simulator.withMttr (Simulator.new P stt nodes clients config) v := by
  have h2 : (Configuration.withMttr config v).failure_config =
      FailureConfiguration.withMttr config.failure_config v := rfl
  simp only [Simulator.new, h2, wrapNodes_mttr, List.length_map]
  rfl

/-- A concrete wrapper sitting in `Normal` with a due failure time. -/
def dueUnitNode : Node Unit :=
  ⟨(), NodeState.normal (some 3), ⟨some 7, 5⟩, 1, 0⟩

/-- Claim C7: on a wrapper's `Normal → Failed` transition the recovery
time is sampled by `sample_failure_time` with mean
`mean_time_between_failures` (not `mean_time_to_recover`); and the
`mean_time_to_recover` configuration field is never read: two runs whose
configurations differ only in that field return identical results and
traces. -/
theorem c7_mttr_unused :
    (∀ {NS M : Type} (impl : DeterministicNode NS M) (self : Node NS)
      (now ft mtbf : Nat) (r : ChaCha8Rng),
      self.state = NodeState.normal (some ft) → ft ≤ now →
      self.failure_config.mean_time_between_failures = some mtbf →
      Node.has_failed impl self now true r =
        (true,
          { self with state :=
              NodeState.failed (sample_failure_time now mtbf r).1 },
          (sample_failure_time now mtbf r).2)) ∧
    (∀ {M NS CS : Type} (P : Protocol M NS CS) (start_time : Nat)
      (nodes : List NS) (clients : List CS) (config : Configuration)
      (v fuel : Nat),
      Simulator.run P fuel
          (Simulator.new P start_time nodes clients
            (Configuration.withMttr config v)) =
        Simulator.run P fuel
          (Simulator.new P start_time nodes clients config)) := by
  constructor
  · intro NS M impl self now ft mtbf r h1 h2 h3
    obtain ⟨nd, st, fc, rc, stt⟩ := self
    replace h1 : st = NodeState.normal (some ft) := h1
    replace h3 : fc.mean_time_between_failures = some mtbf := h3
    subst h1
    simp only [Node.has_failed]
    have hc : (ft ≤ now && true) = true := by simp [h2]
    rw [if_pos hc]
    rw [h3]
    rfl
  · intro M NS CS P stt nodes clients config v fuel
    rw [new_mttr, run_mttr]

/-- Witness: the concrete due wrapper transitions to `Failed` with the
`mtbf`-sampled recovery time, and overriding `mean_time_to_recover` leaves
a concrete run unchanged. -/
theorem c7_mttr_unused_witness :
    (Node.has_failed recoveringUnitNode dueUnitNode 5 true ⟨9, 0⟩ =
      (true,
        { dueUnitNode with state :=
            NodeState.failed (sample_failure_time 5 7 ⟨9, 0⟩).1 },
        (sample_failure_time 5 7 ⟨9, 0⟩).2)) ∧
    (Simulator.run doneClientProtocol 1
        (Simulator.new doneClientProtocol 0 [] []
          (Configuration.withMttr quietConfig 42)) =
      Simulator.run doneClientProtocol 1
        (Simulator.new doneClientProtocol 0 [] [] quietConfig)) :=
  ⟨c7_mttr_unused.1 recoveringUnitNode dueUnitNode 5 3 7 ⟨9, 0⟩ rfl
      (by decide) rfl,
    c7_mttr_unused.2 doneClientProtocol 0 [] [] quietConfig 42 1⟩

end Glitch
